import Mathlib

/-!
Verification development for the rendmail message-rewriting engine.

The Go program reads one RFC 5322 email message from an input stream and
writes a rewritten copy to an output stream, optionally replacing body
parts whose media type matches a deletion policy and optionally adding a
transliterated copy of the Subject header field.  This file gives a
shallow embedding of the engine and of the parts of the Go standard
library it relies on, and proves the specification claims about it.

Modelling conventions:
* A byte string is a `List Char` where every element has code point
  below 256 (one `Char` per byte).  All concrete inputs used in the
  proofs are plain ASCII, where this coincides with Go's `string`.
* Readers become explicit state passing: a function takes the remaining
  input and returns what it consumed together with the rest.  Writers
  become an accumulated output byte string.
* Loops that are not structurally recursive take an explicit fuel
  argument; every public wrapper instantiates the fuel with a bound
  (derived from the input length) that is proved sufficient, so the
  fuel-exhaustion branches are unreachable from the wrappers.
* Go's two error classes are kept apart: `RwError.msg` embeds the
  program's `*msgError` (message-format errors) and `RwError.other`
  embeds every other non-I/O error value.  Transport (I/O) errors do
  not arise in the pure model: reading from a list and appending to a
  list cannot fail.
-/

set_option maxRecDepth 10000

namespace Rendmail

/-- A byte string: one `Char` per byte. -/
abbrev Bytes := List Char

/-- Space or horizontal tab, the RFC 5322 folding whitespace bytes. -/
def isWS (c : Char) : Bool := c = ' ' || c = '\t'

/-! ## Line reader (`lineReader` / `messageReader` in the source)

`readLine` models `bufio.Reader.ReadString('\n')` together with the
EOF adjustment in the Go `readLine` method: a partial final line is
returned as data, and end of input with no pending bytes is EOF
(modelled as `none`). -/

/-- Split off the first physical line: everything up to and including the
first newline byte, or the whole input when it has no newline. -/
def splitLine : Bytes → Bytes × Bytes
  | [] => ([], [])
  | c :: rest =>
    if c = '\n' then ([c], rest)
    else
      let p := splitLine rest
      (c :: p.1, p.2)

/-- `readLine` from the source: the next newline-terminated line with its
terminator, or the partial final line; `none` at end of input. -/
def readLine (input : Bytes) : Option (Bytes × Bytes) :=
  match input with
  | [] => none
  | _ => some (splitLine input)

/-- `trimCRLF` from the source: drop one trailing `"\n"`, and a `'\r'`
just before it when present. -/
def trimCRLF (ln : Bytes) : Bytes :=
  match ln.getLast? with
  | some '\n' =>
    let l := ln.dropLast
    match l.getLast? with
    | some '\r' => l.dropLast
    | _ => l
  | _ => ln

/-! ## `readFoldedLine`

The continuation loop from the source: while the one-byte peek shows a
space or tab, the next physical line belongs to the same logical line.
The peek is `input.head?`; a negative decision consumes nothing. -/

/-- Continuation loop of `readFoldedLine`.  Returns the extra folded
lines, the extra unfolded text, and the remaining input.  The fuel-out
branch mirrors the EOF exit and is unreachable from `foldCont`. -/
def foldContF : Nat → Bytes → List Bytes × Bytes × Bytes
  | 0, input => ([], [], input)
  | fuel + 1, input =>
    match input.head? with
    | none => ([], [], input)
    | some c =>
      if isWS c then
        match readLine input with
        | none => ([], [], input)   -- dead: `input` is nonempty here
        | some (ln, rest) =>
          let p := foldContF fuel rest
          (ln :: p.1, trimCRLF ln ++ p.2.1, p.2.2)
      else ([], [], input)

def foldCont (input : Bytes) : List Bytes × Bytes × Bytes :=
  foldContF (input.length + 1) input

/-- `readFoldedLine` from the source: the list of physical lines forming
one logical header line (terminators intact), the unfolded value, and
the remaining input.  `none` is `io.EOF`. -/
def readFoldedLine (input : Bytes) : Option (List Bytes × Bytes × Bytes) :=
  match readLine input with
  | none => none
  | some (first, rest) =>
    let unfolded := trimCRLF first
    if unfolded = [] then some ([first], unfolded, rest)
    else
      let p := foldCont rest
      some (first :: p.1, unfolded ++ p.2.1, p.2.2)

/-! ## Errors

`RwError.msg` embeds the program's `*msgError`, `RwError.other` every
other non-I/O error (the bad-glob configuration error from
`filepath.Match`, the internal "blank line is folded" error, and the
fuel-exhaustion marker of the model, which is proved unreachable from
the wrappers).  Dynamic `%q`/`%v` payloads of the Go error texts are
elided: the program never branches on error text, only on the
`*msgError` type. -/

inductive RwError where
  | msg (text : String)
  | other (text : String)
deriving DecidableEq, Repr

deriving instance DecidableEq for Except

/-! ## `textproto.CanonicalMIMEHeaderKey` and `parseHeaderField` -/

/-- `validHeaderFieldByte` from Go's net/textproto: the RFC 7230 token
bytes (letters, digits, and the listed specials, among them the single
quote, code 39, and the grave accent, code 96). -/
def validHeaderFieldByte (c : Char) : Bool :=
  ('a' ≤ c && c ≤ 'z') || ('A' ≤ c && c ≤ 'Z') || ('0' ≤ c && c ≤ '9') ||
  c = '!' || c = '#' || c = '$' || c = '%' || c = '&' || c = Char.ofNat 39 ||
  c = '*' || c = '+' || c = '-' || c = '.' || c = '^' || c = '_' ||
  c = Char.ofNat 96 || c = '|' || c = '~'

/-- The case-mapping loop of `canonicalMIMEHeaderKey`: uppercase after a
start or a hyphen, lowercase otherwise. -/
def canonicalLoop : Bool → Bytes → Bytes
  | _, [] => []
  | upper, c :: rest =>
    let c2 := if upper && ('a' ≤ c && c ≤ 'z') then Char.ofNat (c.toNat - 32)
      else if !upper && ('A' ≤ c && c ≤ 'Z') then Char.ofNat (c.toNat + 32)
      else c
    c2 :: canonicalLoop (c2 = '-') rest

/-- `textproto.CanonicalMIMEHeaderKey`: canonicalise the casing, or
return the key unchanged when it contains a non-token byte. -/
def canonicalMIMEHeaderKey (a : Bytes) : Bytes :=
  if a.all validHeaderFieldByte then canonicalLoop true a else a

/-- `parseHeaderField` from the source: split at the first colon,
canonicalise the key, and trim leading spaces and tabs from the value.
`none` is the "missing colon" error (wrapped into a message-format
error by the caller). -/
def parseHeaderField (ln : Bytes) : Option (Bytes × Bytes) :=
  if ln.contains ':' then
    some (canonicalMIMEHeaderKey (ln.takeWhile (· ≠ ':')),
      ((ln.dropWhile (· ≠ ':')).tail).dropWhile isWS)
  else none

/-! ## `filepath.Match` (Go's unix glob matcher)

Faithful translation of path/filepath `Match`, `scanChunk`,
`matchChunk` and `getEsc` for `Separator = '/'`.  Each `Char` stands
for one rune (all pattern and name bytes used by this program are
ASCII).  `none` everywhere below is Go's `ErrBadPattern`. -/

def Separator : Char := '/'

/-- Leading-star consumption at the top of `scanChunk`. -/
def scanStars : Bytes → Bool × Bytes
  | [] => (false, [])
  | c :: rest => if c = '*' then (true, (scanStars rest).2) else (false, c :: rest)

/-- The chunk scan of `scanChunk`: stop at an unbracketed `*`, skip the
byte after a backslash. -/
def scanChunkBody : Bool → Bytes → Bytes × Bytes
  | _, [] => ([], [])
  | inrange, c :: rest =>
    if c = '\\' then
      match rest with
      | [] => ([c], [])
      | d :: rest2 =>
        let p := scanChunkBody inrange rest2
        (c :: d :: p.1, p.2)
    else if c = '[' then
      let p := scanChunkBody true rest
      (c :: p.1, p.2)
    else if c = ']' then
      let p := scanChunkBody false rest
      (c :: p.1, p.2)
    else if c = '*' && !inrange then ([], c :: rest)
    else
      let p := scanChunkBody inrange rest
      (c :: p.1, p.2)

/-- `scanChunk`: (saw a star, next chunk, remaining pattern). -/
def scanChunk (pattern : Bytes) : Bool × Bytes × Bytes :=
  let s := scanStars pattern
  let p := scanChunkBody false s.2
  (s.1, p.1, p.2)

/-- `getEsc`: one possibly-escaped range endpoint; errors on `-`, `]`,
a trailing backslash, and a range that ends with the endpoint. -/
def getEsc (chunk : Bytes) : Option (Char × Bytes) :=
  match chunk with
  | [] => none
  | c :: rest =>
    if c = '-' || c = ']' then none
    else if c = '\\' then
      match rest with
      | [] => none
      | r :: rest2 => if rest2 = [] then none else some (r, rest2)
    else if rest = [] then none else some (c, rest)

/-- Result of `matchChunk`: bad pattern, no match, or a match leaving
the unmatched rest of the name. -/
inductive ChunkRes where
  | bad
  | nomatch
  | ok (rest : Bytes)
deriving DecidableEq, Repr

/-- The range-parsing loop of `matchChunk`'s `[` case.  `r` is the rune
being tested, `m` the match accumulator, `nrange` the range count. -/
def matchRangesF : Nat → Bytes → Char → Bool → Nat → Option (Bool × Bytes)
  | 0, _, _, _, _ => none
  | fuel + 1, chunk, r, m, nrange =>
    if chunk.head? = some ']' && nrange > 0 then some (m, chunk.tail)
    else
      match getEsc chunk with
      | none => none
      | some (lo, chunk1) =>
        match chunk1 with
        | '-' :: chunk2 =>
          match getEsc chunk2 with
          | none => none
          | some (hi, chunk3) =>
            matchRangesF fuel chunk3 r (m || (lo ≤ r && r ≤ hi)) (nrange + 1)
        | _ => matchRangesF fuel chunk1 r (m || (lo ≤ r && r ≤ lo)) (nrange + 1)

/-- `matchChunk` with its `failed` flag: after a failure the chunk is
still consumed to detect bad patterns, without reading the name. -/
def matchChunkF : Nat → Bytes → Bytes → Bool → ChunkRes
  | 0, _, _, _ => .bad
  | fuel + 1, chunk, s, failed0 =>
    match chunk with
    | [] => if failed0 then .nomatch else .ok s
    | c :: rest =>
      let failed := failed0 || s.isEmpty
      if c = '[' then
        let r := if failed then Char.ofNat 0 else s.headD (Char.ofNat 0)
        let s1 := if failed then s else s.tail
        let p : Bool × Bytes :=
          match rest with
          | '^' :: tl => (true, tl)
          | _ => (false, rest)
        match matchRangesF (p.2.length + 1) p.2 r false 0 with
        | none => .bad
        | some (m, chunk2) => matchChunkF fuel chunk2 s1 (failed || (m = p.1))
      else if c = '?' then
        if failed then matchChunkF fuel rest s true
        else
          match s with
          | [] => matchChunkF fuel rest [] true
          | a :: stail => matchChunkF fuel rest stail (a = Separator)
      else if c = '\\' then
        match rest with
        | [] => .bad
        | d :: rest2 =>
          if failed then matchChunkF fuel rest2 s true
          else
            match s with
            | [] => matchChunkF fuel rest2 [] true
            | a :: stail => matchChunkF fuel rest2 stail (d ≠ a)
      else
        if failed then matchChunkF fuel rest s true
        else
          match s with
          | [] => matchChunkF fuel rest [] true
          | a :: stail => matchChunkF fuel rest stail (c ≠ a)

/-- The star search of `Match`: try `matchChunk` at every later start
position of the name, not crossing a separator.  Outer `none` is
`ErrBadPattern`; `some none` means no position matched; `some (some t)`
resumes the pattern loop with name `t`. -/
def matchStarF : Nat → Bytes → Bytes → Bytes → Option (Option Bytes)
  | 0, _, _, _ => none
  | fuel + 1, chunk, nm, restPat =>
    match nm with
    | [] => some none
    | a :: tl =>
      if a = Separator then some none
      else
        match matchChunkF (chunk.length + 1) chunk tl false with
        | .bad => none
        | .ok t =>
          if restPat.isEmpty && !t.isEmpty then matchStarF fuel chunk tl restPat
          else some (some t)
        | .nomatch => matchStarF fuel chunk tl restPat

/-- The bad-pattern sweep `Match` performs over the unprocessed rest of
the pattern before answering `false`. -/
def checkPatternF : Nat → Bytes → Bool
  | 0, _ => false
  | fuel + 1, pattern =>
    match pattern with
    | [] => true
    | _ :: _ =>
      let sc := scanChunk pattern
      match matchChunkF (sc.2.1.length + 1) sc.2.1 [] false with
      | .bad => false
      | _ => checkPatternF fuel sc.2.2

/-- The pattern loop of `filepath.Match`. -/
def matchF : Nat → Bytes → Bytes → Option Bool
  | 0, _, _ => none
  | fuel + 1, pattern, name =>
    match pattern with
    | [] => some name.isEmpty
    | _ :: _ =>
      let sc := scanChunk pattern
      let star := sc.1
      let chunk := sc.2.1
      let rest := sc.2.2
      if star && chunk.isEmpty then
        -- a trailing star matches the rest unless it contains a separator
        some (!name.contains Separator)
      else
        let fallback : Option Bool :=
          match (if star then matchStarF (name.length + 1) chunk name rest
                 else some none) with
          | none => none
          | some (some t) => matchF fuel rest t
          | some none => if checkPatternF (rest.length + 1) rest then some false else none
        match matchChunkF (chunk.length + 1) chunk name false with
        | .ok t => if t.isEmpty || !rest.isEmpty then matchF fuel rest t else fallback
        | .bad => none
        | .nomatch => fallback

/-- `filepath.Match pattern name`: `none` is `ErrBadPattern`. -/
def filepathMatch (pattern name : Bytes) : Option Bool :=
  matchF (pattern.length + 1) pattern name

/-! ## `shouldDelete` -/

/-- The keep-glob loop of `shouldDelete`: `ok true` means delete (no
keep glob matched), `ok false` means the part is kept. -/
def keepLoop (mtype : Bytes) : List Bytes → Except RwError Bool
  | [] => .ok true
  | kp :: rest =>
    match filepathMatch kp mtype with
    | none => .error (.other "syntax error in pattern")
    | some true => .ok false
    | some false => keepLoop mtype rest

/-- `shouldDelete` from the source: first delete glob that matches wins
and is checked against every keep glob; an invalid glob is an error
(never a message-format error). -/
def shouldDelete (mtype : Bytes) : List Bytes → List Bytes → Except RwError Bool
  | [], _ => .ok false
  | dp :: rest, keep =>
    match filepathMatch dp mtype with
    | none => .error (.other "syntax error in pattern")
    | some true => keepLoop mtype keep
    | some false => shouldDelete mtype rest keep

/-! ## `mime.ParseMediaType`

Model of Go's mime package parser as used by the program: media type
(lower-cased, `token "/" token` checked) and plain `attribute=value`
parameters with quoted-string values.  The RFC 2231 extended-parameter
reassembly (keys containing `*`) is outside the modelled scope: such
keys are treated as ordinary parameter names.  The caller substitutes
the RFC 2045 default for any parse error, so the exact error value is
irrelevant (`Except Unit`). -/

/-- ASCII lower-casing (Go `strings.ToLower`; all media types here are
ASCII). -/
def lowerAscii (s : Bytes) : Bytes :=
  s.map fun c => if 'A' ≤ c && c ≤ 'Z' then Char.ofNat (c.toNat + 32) else c

/-- `unicode.IsSpace` restricted to Latin-1. -/
def isSpaceGo (c : Char) : Bool :=
  c = ' ' || c = '\t' || c = '\n' || c = Char.ofNat 11 || c = Char.ofNat 12 ||
  c = '\r' || c = Char.ofNat 0x85 || c = Char.ofNat 0xA0

/-- `strings.TrimSpace`. -/
def trimSpaceGo (s : Bytes) : Bytes :=
  ((s.dropWhile isSpaceGo).reverse.dropWhile isSpaceGo).reverse

/-- `isTSpecial` from Go's mime package. -/
def isTSpecial (c : Char) : Bool :=
  c = '(' || c = ')' || c = '<' || c = '>' || c = '@' || c = ',' || c = ';' ||
  c = ':' || c = '\\' || c = '"' || c = '/' || c = '[' || c = ']' ||
  c = '?' || c = '='

/-- `isTokenChar` from Go's mime package. -/
def isTokenChar (c : Char) : Bool :=
  Char.ofNat 0x20 < c && c < Char.ofNat 0x7f && !isTSpecial c

/-- `consumeToken`: the leading token and the rest. -/
def consumeToken (v : Bytes) : Bytes × Bytes :=
  (v.takeWhile isTokenChar, v.dropWhile isTokenChar)

/-- The quoted-string loop of `consumeValue`, after the opening quote.
`none` is the not-terminated / bare-CR-LF failure. -/
def consumeQuoted : Bytes → Option (Bytes × Bytes)
  | [] => none
  | c :: rest =>
    if c = '"' then some ([], rest)
    else if c = '\\' && ((rest.head?.map isTSpecial).getD false) then
      match rest with
      | d :: rest2 => (consumeQuoted rest2).map fun p => (d :: p.1, p.2)
      | [] => none
    else if c = '\r' || c = '\n' then none
    else (consumeQuoted rest).map fun p => (c :: p.1, p.2)

/-- `consumeValue`: a token or a quoted-string; Go signals failure by
returning an empty value together with the unchanged input. -/
def consumeValue (v : Bytes) : Bytes × Bytes :=
  match v with
  | [] => ([], [])
  | c :: rest =>
    if c ≠ '"' then consumeToken v
    else
      match consumeQuoted rest with
      | some p => p
      | none => ([], v)

/-- `consumeMediaParam`: one `;attribute=value`; an empty first
component with the unchanged input signals failure. -/
def consumeMediaParam (v : Bytes) : Bytes × Bytes × Bytes :=
  let rest := v.dropWhile isSpaceGo
  match rest with
  | ';' :: rest1 =>
    let rest2 := rest1.dropWhile isSpaceGo
    let t := consumeToken rest2
    let param := lowerAscii t.1
    if param = [] then ([], [], v)
    else
      let rest4 := t.2.dropWhile isSpaceGo
      match rest4 with
      | '=' :: rest5 =>
        let rest6 := rest5.dropWhile isSpaceGo
        let val := consumeValue rest6
        if val.1 = [] ∧ val.2 = rest6 then ([], [], v)
        else (param, val.1, val.2)
      | _ => ([], [], v)
  | _ => ([], [], v)

/-- Association-list lookup standing for the Go parameter map. -/
def lookupParam? (ps : List (Bytes × Bytes)) (k : Bytes) : Option Bytes :=
  (ps.find? fun p => p.1 = k).map Prod.snd

/-- Map read with the zero-value default, as `params["boundary"]`. -/
def lookupParam (ps : List (Bytes × Bytes)) (k : Bytes) : Bytes :=
  (lookupParam? ps k).getD []

/-- The parameter loop of `ParseMediaType` (trailing semicolons
tolerated, duplicate names with differing values rejected). -/
def parseParamsF : Nat → Bytes → List (Bytes × Bytes) →
    Except Unit (List (Bytes × Bytes))
  | 0, _, _ => .error ()
  | fuel + 1, v, params =>
    match v with
    | [] => .ok params
    | _ :: _ =>
      let v1 := v.dropWhile isSpaceGo
      if v1 = [] then .ok params
      else
        let r := consumeMediaParam v1
        if r.1 = [] then
          if trimSpaceGo r.2.2 = [';'] then .ok params
          else .error ()
        else
          match lookupParam? params r.1 with
          | some old =>
            if old ≠ r.2.1 then .error ()
            else parseParamsF fuel r.2.2 params
          | none => parseParamsF fuel r.2.2 (params ++ [(r.1, r.2.1)])

/-- `checkMediaTypeDisposition`: `token` or `token "/" token`, nothing
after. -/
def checkMediaTypeDisposition (s : Bytes) : Bool :=
  let t := consumeToken s
  if t.1 = [] then false
  else
    match t.2 with
    | [] => true
    | '/' :: rest1 =>
      let t2 := consumeToken rest1
      !t2.1.isEmpty && t2.2.isEmpty
    | _ => false

/-- `mime.ParseMediaType`. -/
def parseMediaType (v : Bytes) : Except Unit (Bytes × List (Bytes × Bytes)) :=
  let base := v.takeWhile (· ≠ ';')
  let mediatype := lowerAscii (trimSpaceGo base)
  if !checkMediaTypeDisposition mediatype then .error ()
  else
    let rest := v.dropWhile (· ≠ ';')
    match parseParamsF (rest.length + 1) rest [] with
    | .error _ => .error ()
    | .ok ps => .ok (mediatype, ps)

/-- The package-level defaults of the source, computed exactly as there:
`mime.ParseMediaType("text/plain; charset=us-ascii")` (RFC 2045 5.2). -/
def defaultCT : Bytes × List (Bytes × Bytes) :=
  match parseMediaType ("text/plain; charset=us-ascii".toList) with
  | .ok p => p
  | .error _ => ([], [])

def defaultMediaType : Bytes := defaultCT.1

def defaultContentParams : List (Bytes × Bytes) := defaultCT.2

/-! ## `time.Time` and the RFC 1123 numeric-zone format

`time.Time` is modelled by its broken-down calendar fields, which is
all `Format(time.RFC1123Z)` ("Mon, 02 Jan 2006 15:04:05 -0700")
reads. -/

structure GoTime where
  weekday : Nat       -- 0 = Sunday
  day : Nat
  month : Nat         -- 1 = January
  year : Nat
  hour : Nat
  minute : Nat
  second : Nat
  zoneMinutes : Int   -- offset east of UTC, in minutes
deriving DecidableEq, Repr

/-- Zero-pad a number to the given width, as Go's `appendInt`. -/
def padNum (w n : Nat) : Bytes :=
  let d := (Nat.repr n).toList
  List.replicate (w - d.length) '0' ++ d

def weekdayName (w : Nat) : Bytes :=
  (["Sun", "Mon", "Tue", "Wed", "Thu", "Fri", "Sat"].getD (w % 7) "Sun").toList

def monthName (m : Nat) : Bytes :=
  (["Jan", "Feb", "Mar", "Apr", "May", "Jun", "Jul", "Aug", "Sep", "Oct",
    "Nov", "Dec"].getD (m - 1) "Jan").toList

/-- `t.Format(time.RFC1123Z)`. -/
def formatRFC1123Z (t : GoTime) : Bytes :=
  weekdayName t.weekday ++ ", ".toList ++ padNum 2 t.day ++ [' '] ++
  monthName t.month ++ [' '] ++ padNum 4 t.year ++ [' '] ++
  padNum 2 t.hour ++ [':'] ++ padNum 2 t.minute ++ [':'] ++
  padNum 2 t.second ++ [' '] ++
  (if t.zoneMinutes < 0 then '-' else '+') ::
    (padNum 2 (t.zoneMinutes.natAbs / 60) ++ padNum 2 (t.zoneMinutes.natAbs % 60))

/-! ## `foldHeaderField`

`foldRegexp.FindAllString` with pattern `[ \t]*[^ \t]+` is the token
scan below: each token is a maximal whitespace run followed by a
maximal non-whitespace run; trailing whitespace with no word after it
is not matched. -/

def foldTokensF : Nat → Bytes → List Bytes
  | 0, _ => []
  | fuel + 1, s =>
    let ws := s.takeWhile isWS
    let r := s.dropWhile isWS
    match r with
    | [] => []
    | _ :: _ =>
      (ws ++ r.takeWhile (fun c => !isWS c)) ::
        foldTokensF fuel (r.dropWhile (fun c => !isWS c))

def foldTokens (s : Bytes) : List Bytes := foldTokensF (s.length + 1) s

/-- The token-packing loop of `foldHeaderField`; `cur` is the
in-progress final line of the Go slice, `done` the finished lines
(terminators already appended). -/
def foldAux (term : Bytes) : List Bytes → Bytes → List Bytes → List Bytes
  | [], cur, done => done ++ [cur ++ term]
  | p :: rest, cur, done =>
    if cur.length + p.length ≤ 78 then foldAux term rest (cur ++ p) done
    else foldAux term rest p (done ++ [cur ++ term])

/-- `foldHeaderField` from the source: wrap a logical header line into
physical lines of at most 78 characters (more only when a single token
overflows), each terminated with `term`. -/
def foldHeaderField (unfolded term : Bytes) : List Bytes :=
  match foldTokens unfolded with
  | [] => []
  | p :: rest => foldAux term rest p []

/-! ## `decodeHeaderValue`

Model of `mime.WordDecoder.DecodeHeader` with the program's
`CharsetReader` (utf-8, iso-8859-1, us-ascii natively; windows-1252
via the x/text charmap; everything else fails), followed by the
program's transform chain (NFD, strip nonspacing marks, NFC, drop
non-printable-ASCII).  Byte values are `Nat` here, runes are `Nat`
code points; the boundary to the `Bytes` world converts with
`Char.toNat` / `Char.ofNat`, mirroring Go's string/[]byte/rune moves.

Modelled scope of the Unicode data: canonical decompositions are
tabulated for the Latin-1 supplement letters and the windows-1252
extras (the code points the supported charsets produce); code points
without a table entry decompose to themselves, which is exact for all
of printable ASCII and for the remaining Latin-1 code points (none of
which has a canonical decomposition).  Nonspacing marks are the
combining diacritical marks block 0x300-0x36F, the only marks the
table produces.  NFC recomposition is the identity here: no canonical
composition yields an ASCII code point, so recomposition cannot change
the printable-ASCII projection that follows it. -/

/-- ASCII case-insensitive equality (`strings.EqualFold` on the ASCII
charset names used here). -/
def equalFoldAscii (a b : Bytes) : Bool := lowerAscii a = lowerAscii b

/-- `strings.Index`: position of the first occurrence of a substring. -/
def findSub : Bytes → Bytes → Option Nat
  | [], needle => if needle.isEmpty then some 0 else none
  | c :: tl, needle =>
    if needle.isPrefixOf (c :: tl) then some 0
    else (findSub tl needle).map (· + 1)

/-- `fromHex` from Go's mime package (lowercase accepted). -/
def fromHex (c : Char) : Option Nat :=
  if '0' ≤ c && c ≤ '9' then some (c.toNat - 48)
  else if 'A' ≤ c && c ≤ 'F' then some (c.toNat - 65 + 10)
  else if 'a' ≤ c && c ≤ 'f' then some (c.toNat - 97 + 10)
  else none

/-- The Q-encoding decoder (`qDecode`): `_` is space, `=XX` a hex byte,
printable ASCII plus CR/LF/TAB literal; anything else is an invalid
word.  Output is raw bytes. -/
def qDecode : Bytes → Option (List Nat)
  | [] => some []
  | c :: rest =>
    if c = '_' then (qDecode rest).map (32 :: ·)
    else if c = '=' then
      match rest with
      | a :: b :: rest2 =>
        match fromHex a, fromHex b with
        | some hv, some lv => (qDecode rest2).map ((hv * 16 + lv) :: ·)
        | _, _ => none
      | _ => none
    else if (' ' ≤ c && c ≤ '~') || c = '\n' || c = '\r' || c = '\t' then
      (qDecode rest).map (c.toNat :: ·)
    else none

def b64Val (c : Char) : Option Nat :=
  if 'A' ≤ c && c ≤ 'Z' then some (c.toNat - 65)
  else if 'a' ≤ c && c ≤ 'z' then some (c.toNat - 97 + 26)
  else if '0' ≤ c && c ≤ '9' then some (c.toNat - 48 + 52)
  else if c = '+' then some 62
  else if c = '/' then some 63
  else none

/-- Quadruple loop of the standard base64 decoder. -/
def base64Quads : Bytes → Option (List Nat)
  | [] => some []
  | c1 :: c2 :: c3 :: c4 :: rest =>
    match b64Val c1, b64Val c2 with
    | some v1, some v2 =>
      if c3 = '=' && c4 = '=' && rest.isEmpty then some [v1 * 4 + v2 / 16]
      else
        match b64Val c3 with
        | some v3 =>
          if c4 = '=' && rest.isEmpty then
            some [v1 * 4 + v2 / 16, (v2 % 16) * 16 + v3 / 4]
          else
            match b64Val c4 with
            | some v4 =>
              (base64Quads rest).map
                ([v1 * 4 + v2 / 16, (v2 % 16) * 16 + v3 / 4, (v3 % 4) * 64 + v4] ++ ·)
            | none => none
        | none => none
    | _, _ => none
  | _ => none

/-- `base64.StdEncoding.DecodeString` (CR and LF are skipped, as Go
does). -/
def base64Decode (s : Bytes) : Option (List Nat) :=
  base64Quads (s.filter fun c => !(c = '\r' || c = '\n'))

/-- UTF-8 encoding of one code point (Go `WriteRune` on the valid code
points the charset tables produce). -/
def utf8Encode (r : Nat) : List Nat :=
  if r < 0x80 then [r]
  else if r < 0x800 then [0xC0 + r / 64, 0x80 + r % 64]
  else if r < 0x10000 then [0xE0 + r / 4096, 0x80 + (r / 64) % 64, 0x80 + r % 64]
  else [0xF0 + r / 262144, 0x80 + (r / 4096) % 64, 0x80 + (r / 64) % 64, 0x80 + r % 64]

/-- Whether a byte is a UTF-8 continuation byte. -/
def isCont (b : Nat) : Bool := 0x80 ≤ b && b < 0xC0

/-- UTF-8 decoding with Go's `DecodeRune` error convention: any invalid
sequence yields U+FFFD consuming one byte. -/
def utf8DecodeF : Nat → List Nat → List Nat
  | 0, _ => []
  | _ + 1, [] => []
  | fuel + 1, b1 :: rest =>
    if b1 < 0x80 then b1 :: utf8DecodeF fuel rest
    else if b1 < 0xC2 then 0xFFFD :: utf8DecodeF fuel rest
    else if b1 < 0xE0 then
      match rest with
      | b2 :: rest2 =>
        if isCont b2 then ((b1 - 0xC0) * 64 + (b2 - 0x80)) :: utf8DecodeF fuel rest2
        else 0xFFFD :: utf8DecodeF fuel (b2 :: rest2)
      | [] => [0xFFFD]
    else if b1 < 0xF0 then
      match rest with
      | b2 :: b3 :: rest3 =>
        let r := (b1 - 0xE0) * 4096 + (b2 - 0x80) * 64 + (b3 - 0x80)
        if isCont b2 && isCont b3 && decide (0x800 ≤ r) &&
            !(decide (0xD800 ≤ r) && decide (r ≤ 0xDFFF)) then
          r :: utf8DecodeF fuel rest3
        else 0xFFFD :: utf8DecodeF fuel (b2 :: b3 :: rest3)
      | _ => 0xFFFD :: utf8DecodeF fuel rest
    else if b1 < 0xF5 then
      match rest with
      | b2 :: b3 :: b4 :: rest4 =>
        let r := (b1 - 0xF0) * 262144 + (b2 - 0x80) * 4096 + (b3 - 0x80) * 64 + (b4 - 0x80)
        if isCont b2 && isCont b3 && isCont b4 && decide (0x10000 ≤ r) &&
            decide (r ≤ 0x10FFFF) then
          r :: utf8DecodeF fuel rest4
        else 0xFFFD :: utf8DecodeF fuel (b2 :: b3 :: b4 :: rest4)
      | _ => 0xFFFD :: utf8DecodeF fuel rest
    else 0xFFFD :: utf8DecodeF fuel rest

def utf8Decode (bs : List Nat) : List Nat := utf8DecodeF (bs.length + 1) bs

/-- The windows-1252 decode table (x/text `charmap.Windows1252`);
undefined bytes map to U+FFFD. -/
def win1252 (b : Nat) : Nat :=
  if b < 0x80 || 0xA0 ≤ b then b
  else if b = 0x80 then 0x20AC
  else if b = 0x82 then 0x201A
  else if b = 0x83 then 0x0192
  else if b = 0x84 then 0x201E
  else if b = 0x85 then 0x2026
  else if b = 0x86 then 0x2020
  else if b = 0x87 then 0x2021
  else if b = 0x88 then 0x02C6
  else if b = 0x89 then 0x2030
  else if b = 0x8A then 0x0160
  else if b = 0x8B then 0x2039
  else if b = 0x8C then 0x0152
  else if b = 0x8E then 0x017D
  else if b = 0x91 then 0x2018
  else if b = 0x92 then 0x2019
  else if b = 0x93 then 0x201C
  else if b = 0x94 then 0x201D
  else if b = 0x95 then 0x2022
  else if b = 0x96 then 0x2013
  else if b = 0x97 then 0x2014
  else if b = 0x98 then 0x02DC
  else if b = 0x99 then 0x2122
  else if b = 0x9A then 0x0161
  else if b = 0x9B then 0x203A
  else if b = 0x9C then 0x0153
  else if b = 0x9E then 0x017E
  else if b = 0x9F then 0x0178
  else 0xFFFD

/-- `WordDecoder.convert` with the program's `CharsetReader`: produce
UTF-8 bytes from the word's content bytes, or fail for an unhandled
charset. -/
def wordConvert (charset : Bytes) (content : List Nat) : Option (List Nat) :=
  if equalFoldAscii charset ("utf-8".toList) then some content
  else if equalFoldAscii charset ("iso-8859-1".toList) then
    some (content.flatMap utf8Encode)
  else if equalFoldAscii charset ("us-ascii".toList) then
    some (content.flatMap fun b => if 0x80 ≤ b then utf8Encode 0xFFFD else [b])
  else if equalFoldAscii charset ("windows-1252".toList) then
    some (content.flatMap fun b => utf8Encode (win1252 b))
  else none

/-- `decode` from Go's encodedword.go: dispatch on the encoding byte. -/
def wordDecode (enc : Char) (text : Bytes) : Option (List Nat) :=
  if enc = 'B' || enc = 'b' then base64Decode text
  else if enc = 'Q' || enc = 'q' then qDecode text
  else none

def hasNonWhitespace (s : Bytes) : Bool :=
  s.any fun c => !(c = ' ' || c = '\t' || c = '\n' || c = '\r')

/-- The scan loop of `WordDecoder.DecodeHeader`: decode every
`=?charset?enc?text?=` encoded word, dropping pure whitespace between
two adjacent words; a syntactically broken word is passed through as
text; an undecodable word (bad content) is passed through from its
`=?`; an unhandled charset fails the whole decode (`none`). -/
def decodeHeaderLoopF : Nat → Bytes → Bool → List Nat → Option (List Nat)
  | 0, _, _, _ => none
  | fuel + 1, header, betweenWords, acc =>
    match findSub header ("=?".toList) with
    | none => some (acc ++ header.map Char.toNat)
    | some start =>
      let afterStart := header.drop (start + 2)
      match findSub afterStart ("?".toList) with
      | none => some (acc ++ header.map Char.toNat)
      | some i =>
        let charset := afterStart.take i
        let afterCharset := afterStart.drop (i + 1)
        if afterCharset.length < 4 then some (acc ++ header.map Char.toNat)
        else
          let enc := afterCharset.headD ' '
          let afterEnc := afterCharset.tail
          if afterEnc.headD ' ' ≠ '?' then some (acc ++ header.map Char.toNat)
          else
            let textStart := afterEnc.tail
            match findSub textStart ("?=".toList) with
            | none => some (acc ++ header.map Char.toNat)
            | some j =>
              let text := textStart.take j
              let afterWord := textStart.drop (j + 2)
              match wordDecode enc text with
              | none =>
                decodeHeaderLoopF fuel (header.drop (start + 2)) false
                  (acc ++ (header.take (start + 2)).map Char.toNat)
              | some content =>
                let pre := header.take start
                let acc1 :=
                  if start > 0 && (!betweenWords || hasNonWhitespace pre) then
                    acc ++ pre.map Char.toNat
                  else acc
                match wordConvert charset content with
                | none => none
                | some outBytes => decodeHeaderLoopF fuel afterWord true (acc1 ++ outBytes)

/-- `WordDecoder.DecodeHeader` with the program's decoder; output is
UTF-8 bytes, `none` the unhandled-charset error. -/
def decodeHeader (header : Bytes) : Option (List Nat) :=
  decodeHeaderLoopF (header.length + 1) header false []

/-- Canonical decomposition, restricted as documented above. -/
def nfdDecomp (r : Nat) : List Nat :=
  if r = 0xC0 then [0x41, 0x300] else if r = 0xC1 then [0x41, 0x301]
  else if r = 0xC2 then [0x41, 0x302] else if r = 0xC3 then [0x41, 0x303]
  else if r = 0xC4 then [0x41, 0x308] else if r = 0xC5 then [0x41, 0x30A]
  else if r = 0xC7 then [0x43, 0x327]
  else if r = 0xC8 then [0x45, 0x300] else if r = 0xC9 then [0x45, 0x301]
  else if r = 0xCA then [0x45, 0x302] else if r = 0xCB then [0x45, 0x308]
  else if r = 0xCC then [0x49, 0x300] else if r = 0xCD then [0x49, 0x301]
  else if r = 0xCE then [0x49, 0x302] else if r = 0xCF then [0x49, 0x308]
  else if r = 0xD1 then [0x4E, 0x303]
  else if r = 0xD2 then [0x4F, 0x300] else if r = 0xD3 then [0x4F, 0x301]
  else if r = 0xD4 then [0x4F, 0x302] else if r = 0xD5 then [0x4F, 0x303]
  else if r = 0xD6 then [0x4F, 0x308]
  else if r = 0xD9 then [0x55, 0x300] else if r = 0xDA then [0x55, 0x301]
  else if r = 0xDB then [0x55, 0x302] else if r = 0xDC then [0x55, 0x308]
  else if r = 0xDD then [0x59, 0x301]
  else if r = 0xE0 then [0x61, 0x300] else if r = 0xE1 then [0x61, 0x301]
  else if r = 0xE2 then [0x61, 0x302] else if r = 0xE3 then [0x61, 0x303]
  else if r = 0xE4 then [0x61, 0x308] else if r = 0xE5 then [0x61, 0x30A]
  else if r = 0xE7 then [0x63, 0x327]
  else if r = 0xE8 then [0x65, 0x300] else if r = 0xE9 then [0x65, 0x301]
  else if r = 0xEA then [0x65, 0x302] else if r = 0xEB then [0x65, 0x308]
  else if r = 0xEC then [0x69, 0x300] else if r = 0xED then [0x69, 0x301]
  else if r = 0xEE then [0x69, 0x302] else if r = 0xEF then [0x69, 0x308]
  else if r = 0xF1 then [0x6E, 0x303]
  else if r = 0xF2 then [0x6F, 0x300] else if r = 0xF3 then [0x6F, 0x301]
  else if r = 0xF4 then [0x6F, 0x302] else if r = 0xF5 then [0x6F, 0x303]
  else if r = 0xF6 then [0x6F, 0x308]
  else if r = 0xF9 then [0x75, 0x300] else if r = 0xFA then [0x75, 0x301]
  else if r = 0xFB then [0x75, 0x302] else if r = 0xFC then [0x75, 0x308]
  else if r = 0xFD then [0x79, 0x301] else if r = 0xFF then [0x79, 0x308]
  else if r = 0x160 then [0x53, 0x30C] else if r = 0x161 then [0x73, 0x30C]
  else if r = 0x17D then [0x5A, 0x30C] else if r = 0x17E then [0x7A, 0x30C]
  else if r = 0x178 then [0x59, 0x308]
  else [r]

/-- "Mark, nonspacing" within the modelled scope. -/
def isMn (r : Nat) : Bool := 0x300 ≤ r && r ≤ 0x36F

/-- The program's `headerTransformChain` (NFD, remove Mn, NFC, keep
only printable ASCII and TAB) on UTF-8 bytes. -/
def transliterate (bs : List Nat) : List Nat :=
  let runes := utf8Decode bs
  let kept := ((runes.flatMap nfdDecomp).filter fun r => !isMn r).filter
    fun r => !((r < 32 || 126 < r) && r ≠ 9)
  kept.flatMap utf8Encode

/-- `decodeHeaderValue` from the source: RFC 2047 decode, then
transliterate; `none` when decoding fails.  (The transform chain never
fails, so the boolean result of the Go function is exactly the success
of `decodeHeader`.) -/
def decodeHeaderValue (unfolded : Bytes) : Option Bytes :=
  match decodeHeader unfolded with
  | none => none
  | some dec => some ((transliterate dec).map Char.ofNat)

/-! ## The rewrite engine

`rewriteOptions` omits the `verbose`/`silent` fields: they only gate
diagnostic prints to stderr, which have no counterpart in the model.
A `CopyResult` is what one engine function leaves behind: the bytes it
wrote to `w`, the input it has not consumed, and its Go return value
(`Except` in place of the Go `(value, error)` pair; the written bytes
are kept even in the error case, exactly as writes to `w` persist). -/

structure rewriteOptions where
  DeleteMediaTypes : List Bytes
  KeepMediaTypes : List Bytes
  Now : GoTime
  DecodeSubject : Bool
  Strict : Bool
deriving Repr

structure headerData where
  mediaType : Bytes
  contentParams : List (Bytes × Bytes)
  deletePart : Bool
deriving DecidableEq, Repr

structure CopyResult (α : Type) where
  out : Bytes
  rest : Bytes
  res : Except RwError α
deriving DecidableEq, Repr

/-- `copyBody` from the source: copy (or, for a deleted part, drop)
lines until one starts with `delim`; the delimiter line itself is
always written; EOF with a pending delimiter is a message-format
error. -/
def copyBodyF : Nat → Bytes → Bytes → Bool → CopyResult Bool
  | 0, input, _, _ => ⟨[], input, .error (.other "out of fuel")⟩
  | fuel + 1, input, delim, deletePart =>
    match readLine input with
    | none =>
      if delim ≠ [] then ⟨[], input, .error (.msg "EOF while looking for delimiter")⟩
      else ⟨[], input, .ok true⟩
    | some (ln, rest) =>
      let isDelim := !delim.isEmpty && delim.isPrefixOf ln
      let written := if !deletePart || isDelim then ln else []
      if isDelim then
        ⟨written, rest, .ok (("--".toList).isPrefixOf (ln.drop delim.length))⟩
      else
        let r := copyBodyF fuel rest delim deletePart
        ⟨written ++ r.out, r.rest, r.res⟩

def copyBody (input delim : Bytes) (deletePart : Bool) : CopyResult Bool :=
  copyBodyF (input.length + 1) input delim deletePart

/-- The Content-Type resolution inside `copyHeader`: parse the value,
fall back to the RFC 2045 defaults when it does not parse. -/
def resolveContentType (val : Bytes) : Bytes × List (Bytes × Bytes) :=
  match parseMediaType val with
  | .ok p => p
  | .error _ => (defaultMediaType, defaultContentParams)

/-- The replacement header the engine synthesizes for a deleted part
(patterned after mutt), followed by the blank line that ends the
header early. -/
def deletedContentType (term : Bytes) (now : GoTime) : Bytes :=
  ("Content-Type: message/external-body; access-type=x-rendmail-deleted;".toList)
    ++ term ++ '\t' :: ("expiration=".toList) ++ '"' :: formatRFC1123Z now ++ '"' :: term ++ term

/-- The terminator update at the top of the header loop: once set it
stays; otherwise it is CRLF exactly when the first physical line of
the current logical line ends in CRLF. -/
def termSel (term0 : Bytes) (folded : List Bytes) : Bytes :=
  if term0 = [] then
    if ("\r\n".toList).isSuffixOf (folded.headD []) then "\r\n".toList
    else "\n".toList
  else term0

/-- The header loop of `copyHeader`.  `term0` is the line terminator
detected so far (`[]` = not yet set), `gotCT` the first-Content-Type
latch, `data` the accumulated `headerData`. -/
def copyHeaderLoopF : Nat → Bytes → rewriteOptions → Bytes → Bool → headerData →
    CopyResult headerData
  | 0, input, _, _, _, _ => ⟨[], input, .error (.other "out of fuel")⟩
  | fuel + 1, input, opts, term0, gotCT, data =>
    match readFoldedLine input with
    | none => ⟨[], input, .error (.msg "missing body")⟩
    | some (folded, unfolded, rest) =>
      let term := termSel term0 folded
      if unfolded = [] then
        if folded.length ≠ 1 then ⟨[], rest, .error (.other "blank line is folded")⟩
        else ⟨folded.headD [], rest, .ok data⟩
      else
        match parseHeaderField unfolded with
        | none =>
          -- the folded lines are still written before the message error
          -- is returned, so non-strict mode keeps them
          ⟨folded.flatten, rest, .error (.msg "malformed header field")⟩
        | some (key, val) =>
          if key = ("Content-Type".toList) ∧ gotCT = false then
            let ct := resolveContentType val
            match shouldDelete ct.1 opts.DeleteMediaTypes opts.KeepMediaTypes with
            | .error e => ⟨[], rest, .error e⟩
            | .ok del =>
              let synth := if del then deletedContentType term opts.Now else []
              let r := copyHeaderLoopF fuel rest opts term true ⟨ct.1, ct.2, del⟩
              ⟨synth ++ folded.flatten ++ r.out, r.rest, r.res⟩
          else if key = ("Subject".toList) ∧ opts.DecodeSubject = true then
            let newLines :=
              match decodeHeaderValue val with
              | some dec =>
                if dec ≠ [] ∧ dec ≠ val then
                  foldHeaderField (("X-Rendmail-Subject: ".toList) ++ dec) term
                else []
              | none => []
            let r := copyHeaderLoopF fuel rest opts term gotCT data
            ⟨folded.flatten ++ newLines.flatten ++ r.out, r.rest, r.res⟩
          else
            let r := copyHeaderLoopF fuel rest opts term gotCT data
            ⟨folded.flatten ++ r.out, r.rest, r.res⟩

/-- `copyHeader` from the source: loop state initialised as there
(defaults from RFC 2045 5.2, no terminator seen, latch clear). -/
def copyHeader (input : Bytes) (opts : rewriteOptions) : CopyResult headerData :=
  copyHeaderLoopF (input.length + 1) input opts [] false
    ⟨defaultMediaType, defaultContentParams, false⟩

/-! ## `copyMessagePart` and `rewriteMessage`

The for-loop over the enclosed parts of a multipart body becomes the
mutually recursive `copyPartsF`.  The shared fuel decreases once per
call while at least one input byte is consumed every two calls, so
`2 * length + 1` (respectively `+ 2`) is sufficient fuel; the
sufficiency proof is `copyMessagePartF_fuel` below. -/

mutual

def copyMessagePartF : Nat → Bytes → Bytes → rewriteOptions → CopyResult Bool
  | 0, input, _, _ => ⟨[], input, .error (.other "out of fuel")⟩
  | fuel + 1, input, delim, opts =>
    let h := copyHeader input opts
    match h.res with
    | .error e => ⟨h.out, h.rest, .error e⟩
    | .ok hdata =>
      if ("multipart/".toList).isPrefixOf hdata.mediaType = true ∧ hdata.deletePart = false then
        let bnd := lookupParam hdata.contentParams ("boundary".toList)
        if bnd = [] then ⟨h.out, h.rest, .error (.msg "invalid boundary")⟩
        else
          let subDelim := ("--".toList) ++ bnd
          let pre := copyBody h.rest subDelim false
          match pre.res with
          | .error e => ⟨h.out ++ pre.out, pre.rest, .error e⟩
          | .ok true =>
            -- the preamble ran directly into the closing delimiter
            let b := copyBody pre.rest delim hdata.deletePart
            ⟨h.out ++ pre.out ++ b.out, b.rest, b.res⟩
          | .ok false =>
            let ps := copyPartsF fuel pre.rest subDelim opts
            match ps.res with
            | .error e => ⟨h.out ++ pre.out ++ ps.out, ps.rest, .error e⟩
            | .ok _ =>
              let b := copyBody ps.rest delim hdata.deletePart
              ⟨h.out ++ pre.out ++ ps.out ++ b.out, b.rest, b.res⟩
      else
        let b := copyBody h.rest delim hdata.deletePart
        ⟨h.out ++ b.out, b.rest, b.res⟩

/-- The enclosed-parts loop: copy parts until one reports the closing
delimiter. -/
def copyPartsF : Nat → Bytes → Bytes → rewriteOptions → CopyResult Unit
  | 0, input, _, _ => ⟨[], input, .error (.other "out of fuel")⟩
  | fuel + 1, input, subDelim, opts =>
    let p := copyMessagePartF fuel input subDelim opts
    match p.res with
    | .error e => ⟨p.out, p.rest, .error e⟩
    | .ok true => ⟨p.out, p.rest, .ok ()⟩
    | .ok false =>
      let ps := copyPartsF fuel p.rest subDelim opts
      ⟨p.out ++ ps.out, ps.rest, ps.res⟩

end

def copyMessagePart (input delim : Bytes) (opts : rewriteOptions) : CopyResult Bool :=
  copyMessagePartF (2 * input.length + 1) input delim opts

def copyParts (input subDelim : Bytes) (opts : rewriteOptions) : CopyResult Unit :=
  copyPartsF (2 * input.length + 2) input subDelim opts

/-- `rewriteMessage` from the source: run the top-level part with the
empty delimiter; in non-strict mode a message-format error is
swallowed after copying every unconsumed input byte to the output
(`io.Copy(w, lr.r)`); every other error is returned as-is. -/
def rewriteMessage (input : Bytes) (opts : rewriteOptions) : Bytes × Option RwError :=
  let r := copyMessagePart input [] opts
  match r.res with
  | .error (.msg t) =>
    if !opts.Strict then (r.out ++ r.rest, none)
    else (r.out, some (.msg t))
  | .error e => (r.out, some e)
  | .ok _ => (r.out, none)

/-- A Go return that is either success or a `*msgError` (the two
outcomes lenient mode can absorb). -/
def okOrMsg {α : Type} (r : Except RwError α) : Prop :=
  (∃ a, r = .ok a) ∨ (∃ t, r = .error (.msg t))

/-- All glob patterns of an options value are well-formed: `Match`
never reports `ErrBadPattern` on them. -/
def globsOK (opts : rewriteOptions) : Prop :=
  ∀ p m, (p ∈ opts.DeleteMediaTypes ∨ p ∈ opts.KeepMediaTypes) → filepathMatch p m ≠ none

/-- Any state of the header loop, with its natural fuel. -/
def copyHeaderLoop (input : Bytes) (opts : rewriteOptions) (term0 : Bytes)
    (gotCT : Bool) (data : headerData) : CopyResult headerData :=
  copyHeaderLoopF (input.length + 1) input opts term0 gotCT data

/-- A fixed reference time used by the concrete runs below. -/
def tTest : GoTime := ⟨1, 18, 2, 2021, 21, 54, 42, 0⟩

end Rendmail

namespace Rendmail

/-! ## Basic facts about the line reader -/

theorem splitLine_append (input : Bytes) :
    (splitLine input).1 ++ (splitLine input).2 = input := by
  induction input with
  | nil => rfl
  | cons c rest ih =>
    by_cases h : c = '\n' <;> simp [splitLine, h, ih]

theorem splitLine_ne_nil (input : Bytes) (h : input ≠ []) :
    (splitLine input).1 ≠ [] := by
  cases input with
  | nil => exact absurd rfl h
  | cons c rest =>
    by_cases hc : c = '\n' <;> simp [splitLine, hc]

theorem readLine_some (input line rest : Bytes)
    (h : readLine input = some (line, rest)) :
    line ++ rest = input ∧ line ≠ [] := by
  cases input with
  | nil => simp [readLine] at h
  | cons c tl =>
    simp only [readLine, Option.some.injEq] at h
    have h1 : (splitLine (c :: tl)).1 = line := by rw [h]
    have h2 : (splitLine (c :: tl)).2 = rest := by rw [h]
    constructor
    · rw [← h1, ← h2]; exact splitLine_append _
    · rw [← h1]; exact splitLine_ne_nil _ (by simp)

theorem readLine_some_length (input line rest : Bytes)
    (h : readLine input = some (line, rest)) :
    rest.length < input.length := by
  obtain ⟨happ, hne⟩ := readLine_some input line rest h
  have hlen := congrArg List.length happ
  simp only [List.length_append] at hlen
  have : 0 < line.length := List.length_pos.mpr hne
  omega

theorem foldContF_spec (fuel : Nat) :
    ∀ input : Bytes, input.length < fuel →
      (foldContF fuel input).1.flatten ++ (foldContF fuel input).2.2 = input ∧
      (foldContF fuel input).2.1 = ((foldContF fuel input).1.map trimCRLF).flatten ∧
      (foldContF fuel input).2.2.length ≤ input.length ∧
      (∀ ln ∈ (foldContF fuel input).1, ∃ c, ln.head? = some c ∧ isWS c) ∧
      ((foldContF fuel input).2.2 = [] ∨
        ∃ c, (foldContF fuel input).2.2.head? = some c ∧ ¬ isWS c) := by
  induction fuel with
  | zero => intro input h; omega
  | succ fuel ih =>
    intro input h
    match hhd : input.head? with
    | none =>
      have : input = [] := by cases input <;> simp_all
      subst this
      simp [foldContF]
    | some c =>
      by_cases hc : isWS c
      · have hne : input ≠ [] := by cases input <;> simp_all
        match hrl : readLine input with
        | none =>
          cases input with
          | nil => exact absurd rfl hne
          | cons a tl => simp [readLine] at hrl
        | some (ln, rest) =>
          obtain ⟨happ, hlnne⟩ := readLine_some input ln rest hrl
          have hrest : rest.length < fuel := by
            have := readLine_some_length input ln rest hrl
            omega
          obtain ⟨ih1, ih2, ih3, ih4, ih5⟩ := ih rest hrest
          have hstep : foldContF (fuel + 1) input =
              (ln :: (foldContF fuel rest).1,
               trimCRLF ln ++ (foldContF fuel rest).2.1,
               (foldContF fuel rest).2.2) := by
            simp [foldContF, hhd, hc, hrl]
          rw [hstep]
          have hlen := congrArg List.length happ
          simp only [List.length_append] at hlen
          refine ⟨?_, ?_, ?_, ?_, ?_⟩
          · simp only [List.flatten_cons, List.append_assoc, ih1, happ]
          · simp [ih2]
          · simp only []; omega
          · intro l hl
            rcases List.mem_cons.mp hl with hl | hl
            · rw [hl]
              refine ⟨c, ?_, hc⟩
              cases input with
              | nil => exact absurd rfl hne
              | cons a tl =>
                have : ln.head? = some a := by
                  cases ln with
                  | nil => exact absurd rfl hlnne
                  | cons b bs =>
                    have : b = a := by
                      have := congrArg List.head? happ
                      simpa using this
                    simp [this]
                simp only [List.head?_cons, Option.some.injEq] at hhd
                rw [this, hhd]
            · exact ih4 l hl
          · exact ih5
      · have hstep : foldContF (fuel + 1) input = ([], [], input) := by
          simp [foldContF, hhd, hc]
        rw [hstep]
        exact ⟨by simp, by simp, le_refl _, by simp, Or.inr ⟨c, hhd, hc⟩⟩

theorem foldCont_spec (input : Bytes) :
    (foldCont input).1.flatten ++ (foldCont input).2.2 = input ∧
    (foldCont input).2.1 = ((foldCont input).1.map trimCRLF).flatten ∧
    (foldCont input).2.2.length ≤ input.length ∧
    (∀ ln ∈ (foldCont input).1, ∃ c, ln.head? = some c ∧ isWS c) ∧
    ((foldCont input).2.2 = [] ∨
      ∃ c, (foldCont input).2.2.head? = some c ∧ ¬ isWS c) :=
  foldContF_spec (input.length + 1) input (by omega)

/-- The combined behaviour of `readFoldedLine`: byte preservation, the
unfolded value, the folding rule for continuation lines, the singleton
blank case, and the unconsumed non-continuation line. -/
theorem readFoldedLine_spec (input : Bytes) (folded : List Bytes)
    (unfolded rest : Bytes)
    (h : readFoldedLine input = some (folded, unfolded, rest)) :
    folded ≠ [] ∧
    folded.flatten ++ rest = input ∧
    unfolded = (folded.map trimCRLF).flatten ∧
    (∀ ln ∈ folded.tail, ∃ c, ln.head? = some c ∧ isWS c) ∧
    (unfolded = [] → folded.length = 1) ∧
    (unfolded ≠ [] → rest = [] ∨ ∃ c, rest.head? = some c ∧ ¬ isWS c) ∧
    rest.length < input.length := by
  match hrl : readLine input with
  | none => simp [readFoldedLine, hrl] at h
  | some (first, rest0) =>
    obtain ⟨happ, hfne⟩ := readLine_some input first rest0 hrl
    have hlen0 := readLine_some_length input first rest0 hrl
    by_cases hu : trimCRLF first = []
    · have hcomp : readFoldedLine input = some ([first], trimCRLF first, rest0) := by
        simp [readFoldedLine, hrl, hu]
      rw [hcomp] at h
      simp only [Option.some.injEq, Prod.mk.injEq] at h
      obtain ⟨h1, h2, h3⟩ := h
      subst h1; subst h2; subst h3
      refine ⟨by simp, by simpa using happ, by simp [hu], by simp, fun _ => rfl,
        fun hne => absurd hu hne, hlen0⟩
    · obtain ⟨f1, f2, f3, f4, f5⟩ := foldCont_spec rest0
      have hcomp : readFoldedLine input = some (first :: (foldCont rest0).1,
          trimCRLF first ++ (foldCont rest0).2.1, (foldCont rest0).2.2) := by
        simp [readFoldedLine, hrl, hu]
      rw [hcomp] at h
      simp only [Option.some.injEq, Prod.mk.injEq] at h
      obtain ⟨h1, h2, h3⟩ := h
      subst h1; subst h2; subst h3
      refine ⟨by simp, ?_, ?_, ?_, ?_, ?_, ?_⟩
      · rw [List.flatten_cons, List.append_assoc, f1, happ]
      · simp [f2]
      · simpa using f4
      · intro habs
        exact absurd (List.append_eq_nil.mp habs).1 hu
      · intro _
        exact f5
      · omega

theorem defaultCT_eval :
    defaultCT = ("text/plain".toList, [("charset".toList, "us-ascii".toList)]) := by
  decide

end Rendmail


namespace Rendmail

/-! ## Basic facts about the engine loops -/


theorem copyBodyF_spec (fuel : Nat) :
    ∀ (input delim : Bytes) (del : Bool), input.length < fuel →
      okOrMsg (copyBodyF fuel input delim del).res ∧
      (copyBodyF fuel input delim del).rest.length ≤ input.length ∧
      ((copyBodyF fuel input delim del).res = .ok false →
        (copyBodyF fuel input delim del).rest.length < input.length) ∧
      (del = false →
        (copyBodyF fuel input delim del).out ++ (copyBodyF fuel input delim del).rest = input) := by
  induction fuel with
  | zero => intro input delim del h; omega
  | succ fuel ih =>
    intro input delim del h
    match hrl : readLine input with
    | none =>
      have hnil : input = [] := by
        cases input with
        | nil => rfl
        | cons a tl => simp [readLine] at hrl
      by_cases hd : delim = []
      · have hstep : copyBodyF (fuel + 1) input delim del = ⟨[], input, .ok true⟩ := by
          simp [copyBodyF, hrl, hd]
        rw [hstep]
        exact ⟨Or.inl ⟨true, rfl⟩, le_refl _, by simp, fun _ => rfl⟩
      · have hstep : copyBodyF (fuel + 1) input delim del =
            ⟨[], input, .error (.msg "EOF while looking for delimiter")⟩ := by
          simp [copyBodyF, hrl, hd]
        rw [hstep]
        exact ⟨Or.inr ⟨_, rfl⟩, le_refl _, by simp, fun _ => rfl⟩
    | some (ln, rest0) =>
      obtain ⟨happ, hlnne⟩ := readLine_some input ln rest0 hrl
      have hlt := readLine_some_length input ln rest0 hrl
      by_cases hd : (!delim.isEmpty && delim.isPrefixOf ln) = true
      · have hstep : copyBodyF (fuel + 1) input delim del =
            ⟨if !del || (!delim.isEmpty && delim.isPrefixOf ln) then ln else [],
             rest0, .ok (("--".toList).isPrefixOf (ln.drop delim.length))⟩ := by
          simp only [copyBodyF, hrl, hd, if_pos rfl, if_true]
        rw [hstep]
        refine ⟨Or.inl ⟨_, rfl⟩, le_of_lt hlt, fun _ => hlt, fun hdel => ?_⟩
        subst hdel
        simpa using happ
      · have hstep : copyBodyF (fuel + 1) input delim del =
            ⟨(if !del || (!delim.isEmpty && delim.isPrefixOf ln) then ln else []) ++
               (copyBodyF fuel rest0 delim del).out,
             (copyBodyF fuel rest0 delim del).rest,
             (copyBodyF fuel rest0 delim del).res⟩ := by
          simp only [copyBodyF, hrl, hd, if_false, Bool.false_eq_true]
        obtain ⟨ih1, ih2, ih3, ih4⟩ := ih rest0 delim del (by omega)
        rw [hstep]
        refine ⟨ih1, by simpa using le_trans ih2 (le_of_lt hlt), fun hres => ?_, fun hdel => ?_⟩
        · exact lt_of_le_of_lt ih2 hlt
        · subst hdel
          simp only [Bool.not_false, Bool.true_or, if_true, List.append_assoc, ih4 rfl, happ]

theorem copyBody_spec (input delim : Bytes) (del : Bool) :
    okOrMsg (copyBody input delim del).res ∧
    (copyBody input delim del).rest.length ≤ input.length ∧
    ((copyBody input delim del).res = .ok false →
      (copyBody input delim del).rest.length < input.length) ∧
    (del = false → (copyBody input delim del).out ++ (copyBody input delim del).rest = input) :=
  copyBodyF_spec (input.length + 1) input delim del (by omega)

/-- With the empty delimiter `copyBody` copies the whole input (the
deleted variant drops it) and succeeds with `end = true`. -/
theorem copyBodyF_nil_delim (fuel : Nat) :
    ∀ (input : Bytes) (del : Bool), input.length < fuel →
      copyBodyF fuel input [] del =
        ⟨if del then [] else input, [], .ok true⟩ := by
  induction fuel with
  | zero => intro input del h; omega
  | succ fuel ih =>
    intro input del h
    match hrl : readLine input with
    | none =>
      have hnil : input = [] := by
        cases input with
        | nil => rfl
        | cons a tl => simp [readLine] at hrl
      subst hnil
      cases del <;> simp [copyBodyF, hrl]
    | some (ln, rest0) =>
      obtain ⟨happ, hlnne⟩ := readLine_some input ln rest0 hrl
      have hlt := readLine_some_length input ln rest0 hrl
      have hstep : copyBodyF (fuel + 1) input [] del =
          ⟨(if !del then ln else []) ++ (copyBodyF fuel rest0 [] del).out,
           (copyBodyF fuel rest0 [] del).rest,
           (copyBodyF fuel rest0 [] del).res⟩ := by
        simp [copyBodyF, hrl]
      rw [hstep, ih rest0 del (by omega)]
      cases del <;> simp_all

theorem copyBody_nil_delim (input : Bytes) (del : Bool) :
    copyBody input [] del = ⟨if del then [] else input, [], .ok true⟩ :=
  copyBodyF_nil_delim (input.length + 1) input del (by omega)

end Rendmail

namespace Rendmail


theorem keepLoop_ok (m : Bytes) (keep : List Bytes)
    (h : ∀ p ∈ keep, filepathMatch p m ≠ none) :
    ∃ b, keepLoop m keep = .ok b := by
  induction keep with
  | nil => exact ⟨true, rfl⟩
  | cons kp rest ih =>
    have hk := h kp (by simp)
    match hm : filepathMatch kp m with
    | none => exact absurd hm hk
    | some true => exact ⟨false, by simp [keepLoop, hm]⟩
    | some false =>
      obtain ⟨b, hb⟩ := ih fun p hp => h p (by simp [hp])
      exact ⟨b, by simp [keepLoop, hm, hb]⟩

theorem shouldDelete_ok (m : Bytes) (del keep : List Bytes)
    (hdel : ∀ p ∈ del, filepathMatch p m ≠ none)
    (hkeep : ∀ p ∈ keep, filepathMatch p m ≠ none) :
    ∃ b, shouldDelete m del keep = .ok b := by
  induction del with
  | nil => exact ⟨false, rfl⟩
  | cons dp rest ih =>
    have hd := hdel dp (by simp)
    match hm : filepathMatch dp m with
    | none => exact absurd hm hd
    | some true =>
      obtain ⟨b, hb⟩ := keepLoop_ok m keep hkeep
      exact ⟨b, by simp [shouldDelete, hm, hb]⟩
    | some false =>
      obtain ⟨b, hb⟩ := ih fun p hp => hdel p (by simp [hp])
      exact ⟨b, by simp [shouldDelete, hm, hb]⟩

end Rendmail

namespace Rendmail

/-! ### One-step equations for the header loop -/

theorem copyHeaderLoopF_step_eof (fuel : Nat) (input : Bytes) (opts : rewriteOptions)
    (term0 : Bytes) (gotCT : Bool) (data : headerData)
    (hrf : readFoldedLine input = none) :
    copyHeaderLoopF (fuel + 1) input opts term0 gotCT data =
      ⟨[], input, .error (.msg "missing body")⟩ := by
  simp [copyHeaderLoopF, hrf]

theorem copyHeaderLoopF_step_blank (fuel : Nat) (input : Bytes) (opts : rewriteOptions)
    (term0 : Bytes) (gotCT : Bool) (data : headerData)
    (folded : List Bytes) (unfolded rest : Bytes)
    (hrf : readFoldedLine input = some (folded, unfolded, rest))
    (hu : unfolded = []) (hlen : folded.length = 1) :
    copyHeaderLoopF (fuel + 1) input opts term0 gotCT data =
      ⟨folded.headD [], rest, .ok data⟩ := by
  simp [copyHeaderLoopF, hrf, hu, hlen]

theorem copyHeaderLoopF_step_malformed (fuel : Nat) (input : Bytes) (opts : rewriteOptions)
    (term0 : Bytes) (gotCT : Bool) (data : headerData)
    (folded : List Bytes) (unfolded rest : Bytes)
    (hrf : readFoldedLine input = some (folded, unfolded, rest))
    (hu : unfolded ≠ []) (hpf : parseHeaderField unfolded = none) :
    copyHeaderLoopF (fuel + 1) input opts term0 gotCT data =
      ⟨folded.flatten, rest, .error (.msg "malformed header field")⟩ := by
  simp [copyHeaderLoopF, hrf, hu, hpf]

theorem copyHeaderLoopF_step_ct (fuel : Nat) (input : Bytes) (opts : rewriteOptions)
    (term0 : Bytes) (data : headerData)
    (folded : List Bytes) (unfolded rest : Bytes) (key val : Bytes) (del : Bool)
    (hrf : readFoldedLine input = some (folded, unfolded, rest))
    (hu : unfolded ≠ []) (hpf : parseHeaderField unfolded = some (key, val))
    (hkey : key = ("Content-Type".toList))
    (hdel : shouldDelete (resolveContentType val).1 opts.DeleteMediaTypes
      opts.KeepMediaTypes = .ok del) :
    copyHeaderLoopF (fuel + 1) input opts term0 false data =
      ⟨(if del then deletedContentType (termSel term0 folded) opts.Now else []) ++
          folded.flatten ++
          (copyHeaderLoopF fuel rest opts (termSel term0 folded) true
            ⟨(resolveContentType val).1, (resolveContentType val).2, del⟩).out,
        (copyHeaderLoopF fuel rest opts (termSel term0 folded) true
          ⟨(resolveContentType val).1, (resolveContentType val).2, del⟩).rest,
        (copyHeaderLoopF fuel rest opts (termSel term0 folded) true
          ⟨(resolveContentType val).1, (resolveContentType val).2, del⟩).res⟩ := by
  subst hkey
  simp [copyHeaderLoopF, hrf, hu, hpf, hdel]

theorem copyHeaderLoopF_step_ct_err (fuel : Nat) (input : Bytes) (opts : rewriteOptions)
    (term0 : Bytes) (data : headerData)
    (folded : List Bytes) (unfolded rest : Bytes) (key val : Bytes) (e : RwError)
    (hrf : readFoldedLine input = some (folded, unfolded, rest))
    (hu : unfolded ≠ []) (hpf : parseHeaderField unfolded = some (key, val))
    (hkey : key = ("Content-Type".toList))
    (hdel : shouldDelete (resolveContentType val).1 opts.DeleteMediaTypes
      opts.KeepMediaTypes = .error e) :
    copyHeaderLoopF (fuel + 1) input opts term0 false data = ⟨[], rest, .error e⟩ := by
  subst hkey
  simp [copyHeaderLoopF, hrf, hu, hpf, hdel]

theorem copyHeaderLoopF_step_subject (fuel : Nat) (input : Bytes) (opts : rewriteOptions)
    (term0 : Bytes) (gotCT : Bool) (data : headerData)
    (folded : List Bytes) (unfolded rest : Bytes) (val : Bytes)
    (hrf : readFoldedLine input = some (folded, unfolded, rest))
    (hu : unfolded ≠ [])
    (hpf : parseHeaderField unfolded = some (("Subject".toList), val))
    (hds : opts.DecodeSubject = true) :
    copyHeaderLoopF (fuel + 1) input opts term0 gotCT data =
      ⟨folded.flatten ++
          (match decodeHeaderValue val with
           | some dec =>
             if dec ≠ [] ∧ dec ≠ val then
               foldHeaderField (("X-Rendmail-Subject: ".toList) ++ dec)
                 (termSel term0 folded)
             else []
           | none => []).flatten ++
          (copyHeaderLoopF fuel rest opts (termSel term0 folded) gotCT data).out,
        (copyHeaderLoopF fuel rest opts (termSel term0 folded) gotCT data).rest,
        (copyHeaderLoopF fuel rest opts (termSel term0 folded) gotCT data).res⟩ := by
  have hne : ("Subject".toList : Bytes) ≠ ("Content-Type".toList) := by decide
  simp [copyHeaderLoopF, hrf, hu, hpf, hds, hne]

theorem copyHeaderLoopF_step_other (fuel : Nat) (input : Bytes) (opts : rewriteOptions)
    (term0 : Bytes) (gotCT : Bool) (data : headerData)
    (folded : List Bytes) (unfolded rest : Bytes) (key val : Bytes)
    (hrf : readFoldedLine input = some (folded, unfolded, rest))
    (hu : unfolded ≠ []) (hpf : parseHeaderField unfolded = some (key, val))
    (hct : ¬(key = ("Content-Type".toList) ∧ gotCT = false))
    (hsubj : ¬(key = ("Subject".toList) ∧ opts.DecodeSubject = true)) :
    copyHeaderLoopF (fuel + 1) input opts term0 gotCT data =
      ⟨folded.flatten ++
          (copyHeaderLoopF fuel rest opts (termSel term0 folded) gotCT data).out,
        (copyHeaderLoopF fuel rest opts (termSel term0 folded) gotCT data).rest,
        (copyHeaderLoopF fuel rest opts (termSel term0 folded) gotCT data).res⟩ := by
  simp only [copyHeaderLoopF, hrf, hpf]
  rw [if_neg hu, if_neg hct, if_neg hsubj]

end Rendmail

namespace Rendmail

/-- General safety of the header loop: with well-formed globs the only
errors are message-format errors, and success always consumes at least
the blank line. -/
theorem copyHeaderLoopF_spec (fuel : Nat) :
    ∀ (input : Bytes) (opts : rewriteOptions) (term0 : Bytes) (gotCT : Bool)
      (data : headerData), input.length < fuel → globsOK opts →
      okOrMsg (copyHeaderLoopF fuel input opts term0 gotCT data).res ∧
      (copyHeaderLoopF fuel input opts term0 gotCT data).rest.length ≤ input.length ∧
      (∀ d, (copyHeaderLoopF fuel input opts term0 gotCT data).res = .ok d →
        (copyHeaderLoopF fuel input opts term0 gotCT data).rest.length < input.length) := by
  induction fuel with
  | zero => intro input opts term0 gotCT data h _; omega
  | succ fuel ih =>
    intro input opts term0 gotCT data h hg
    match hrf : readFoldedLine input with
    | none =>
      rw [copyHeaderLoopF_step_eof fuel input opts term0 gotCT data hrf]
      exact ⟨Or.inr ⟨_, rfl⟩, le_refl _, by simp⟩
    | some (folded, unfolded, rest1) =>
      obtain ⟨hfne, hflat, hunf, htail, hblank, hnext, hlt⟩ :=
        readFoldedLine_spec input folded unfolded rest1 hrf
      by_cases hu : unfolded = []
      · rw [copyHeaderLoopF_step_blank fuel input opts term0 gotCT data folded unfolded
          rest1 hrf hu (hblank hu)]
        exact ⟨Or.inl ⟨_, rfl⟩, le_of_lt hlt, fun d _ => hlt⟩
      · match hpf : parseHeaderField unfolded with
        | none =>
          rw [copyHeaderLoopF_step_malformed fuel input opts term0 gotCT data folded
            unfolded rest1 hrf hu hpf]
          exact ⟨Or.inr ⟨_, rfl⟩, le_of_lt hlt, by simp⟩
        | some (key, val) =>
          by_cases hct : key = ("Content-Type".toList) ∧ gotCT = false
          · obtain ⟨hkey, hgot⟩ := hct
            obtain ⟨del, hdel⟩ := shouldDelete_ok (resolveContentType val).1
              opts.DeleteMediaTypes opts.KeepMediaTypes
              (fun p hp => hg p _ (Or.inl hp)) (fun p hp => hg p _ (Or.inr hp))
            subst hgot
            rw [copyHeaderLoopF_step_ct fuel input opts term0 data folded unfolded rest1
              key val del hrf hu hpf hkey hdel]
            obtain ⟨ih1, ih2, ih3⟩ := ih rest1 opts (termSel term0 folded) true
              ⟨(resolveContentType val).1, (resolveContentType val).2, del⟩ (by omega) hg
            exact ⟨ih1, le_trans ih2 (le_of_lt hlt), fun d _ => lt_of_le_of_lt ih2 hlt⟩
          · by_cases hsubj : key = ("Subject".toList) ∧ opts.DecodeSubject = true
            · obtain ⟨hkey, hds⟩ := hsubj
              subst hkey
              rw [copyHeaderLoopF_step_subject fuel input opts term0 gotCT data folded
                unfolded rest1 val hrf hu hpf hds]
              obtain ⟨ih1, ih2, ih3⟩ := ih rest1 opts (termSel term0 folded) gotCT data
                (by omega) hg
              exact ⟨ih1, le_trans ih2 (le_of_lt hlt), fun d _ => lt_of_le_of_lt ih2 hlt⟩
            · rw [copyHeaderLoopF_step_other fuel input opts term0 gotCT data folded
                unfolded rest1 key val hrf hu hpf hct hsubj]
              obtain ⟨ih1, ih2, ih3⟩ := ih rest1 opts (termSel term0 folded) gotCT data
                (by omega) hg
              exact ⟨ih1, le_trans ih2 (le_of_lt hlt), fun d _ => lt_of_le_of_lt ih2 hlt⟩

theorem copyHeader_spec (input : Bytes) (opts : rewriteOptions) (hg : globsOK opts) :
    okOrMsg (copyHeader input opts).res ∧
    (copyHeader input opts).rest.length ≤ input.length ∧
    (∀ d, (copyHeader input opts).res = .ok d →
      (copyHeader input opts).rest.length < input.length) :=
  copyHeaderLoopF_spec (input.length + 1) input opts [] false
    ⟨defaultMediaType, defaultContentParams, false⟩ (by omega) hg

end Rendmail

namespace Rendmail

/-- With an empty delete list and subject decoding off, the header loop
writes exactly the bytes it consumes, and never marks a part for
deletion. -/
theorem copyHeaderLoopF_verbatim (fuel : Nat) :
    ∀ (input : Bytes) (opts : rewriteOptions) (term0 : Bytes) (gotCT : Bool)
      (data : headerData), input.length < fuel →
      opts.DeleteMediaTypes = [] → opts.DecodeSubject = false →
      data.deletePart = false →
      (copyHeaderLoopF fuel input opts term0 gotCT data).out ++
        (copyHeaderLoopF fuel input opts term0 gotCT data).rest = input ∧
      (∀ d, (copyHeaderLoopF fuel input opts term0 gotCT data).res = .ok d →
        d.deletePart = false) := by
  induction fuel with
  | zero => intro input opts term0 gotCT data h _ _ _; omega
  | succ fuel ih =>
    intro input opts term0 gotCT data h hDel hDS hdp
    match hrf : readFoldedLine input with
    | none =>
      rw [copyHeaderLoopF_step_eof fuel input opts term0 gotCT data hrf]
      exact ⟨rfl, by simp⟩
    | some (folded, unfolded, rest1) =>
      obtain ⟨hfne, hflat, hunf, htail, hblank, hnext, hlt⟩ :=
        readFoldedLine_spec input folded unfolded rest1 hrf
      by_cases hu : unfolded = []
      · have hlen1 := hblank hu
        rw [copyHeaderLoopF_step_blank fuel input opts term0 gotCT data folded unfolded
          rest1 hrf hu hlen1]
        constructor
        · have : folded.headD [] ++ rest1 = input := by
            match folded, hlen1 with
            | [l], _ => simpa using hflat
          simpa using this
        · intro d hd
          cases hd
          exact hdp
      · match hpf : parseHeaderField unfolded with
        | none =>
          rw [copyHeaderLoopF_step_malformed fuel input opts term0 gotCT data folded
            unfolded rest1 hrf hu hpf]
          exact ⟨hflat, by simp⟩
        | some (key, val) =>
          by_cases hct : key = ("Content-Type".toList) ∧ gotCT = false
          · obtain ⟨hkey, hgot⟩ := hct
            have hdel : shouldDelete (resolveContentType val).1 opts.DeleteMediaTypes
                opts.KeepMediaTypes = .ok false := by
              rw [hDel]
              rfl
            subst hgot
            rw [copyHeaderLoopF_step_ct fuel input opts term0 data folded unfolded rest1
              key val false hrf hu hpf hkey hdel]
            obtain ⟨ih1, ih2⟩ := ih rest1 opts (termSel term0 folded) true
              ⟨(resolveContentType val).1, (resolveContentType val).2, false⟩
              (by omega) hDel hDS rfl
            constructor
            · simp [List.append_assoc, ih1, hflat]
            · exact ih2
          · have hsubj : ¬(key = ("Subject".toList) ∧ opts.DecodeSubject = true) := by
              rintro ⟨-, hds⟩
              rw [hDS] at hds
              exact Bool.false_ne_true hds
            rw [copyHeaderLoopF_step_other fuel input opts term0 gotCT data folded
              unfolded rest1 key val hrf hu hpf hct hsubj]
            obtain ⟨ih1, ih2⟩ := ih rest1 opts (termSel term0 folded) gotCT data
              (by omega) hDel hDS hdp
            constructor
            · simp [List.append_assoc, ih1, hflat]
            · exact ih2

end Rendmail

namespace Rendmail

/-! ### One-step equations for `copyMessagePartF` / `copyPartsF` -/

theorem copyMessagePartF_step_hdr_err (fuel : Nat) (input delim : Bytes)
    (opts : rewriteOptions) (e : RwError)
    (hh : (copyHeader input opts).res = .error e) :
    copyMessagePartF (fuel + 1) input delim opts =
      ⟨(copyHeader input opts).out, (copyHeader input opts).rest, .error e⟩ := by
  simp [copyMessagePartF, hh]

theorem copyMessagePartF_step_flat (fuel : Nat) (input delim : Bytes)
    (opts : rewriteOptions) (hdata : headerData)
    (hh : (copyHeader input opts).res = .ok hdata)
    (hmp : ¬(("multipart/".toList).isPrefixOf hdata.mediaType = true ∧
      hdata.deletePart = false)) :
    copyMessagePartF (fuel + 1) input delim opts =
      ⟨(copyHeader input opts).out ++
          (copyBody (copyHeader input opts).rest delim hdata.deletePart).out,
        (copyBody (copyHeader input opts).rest delim hdata.deletePart).rest,
        (copyBody (copyHeader input opts).rest delim hdata.deletePart).res⟩ := by
  simp only [copyMessagePartF, hh]
  rw [if_neg hmp]

theorem copyMessagePartF_step_badbnd (fuel : Nat) (input delim : Bytes)
    (opts : rewriteOptions) (hdata : headerData)
    (hh : (copyHeader input opts).res = .ok hdata)
    (hmp : ("multipart/".toList).isPrefixOf hdata.mediaType = true ∧
      hdata.deletePart = false)
    (hbnd : lookupParam hdata.contentParams ("boundary".toList) = []) :
    copyMessagePartF (fuel + 1) input delim opts =
      ⟨(copyHeader input opts).out, (copyHeader input opts).rest,
        .error (.msg "invalid boundary")⟩ := by
  simp only [copyMessagePartF, hh]
  rw [if_pos hmp, if_pos hbnd]

theorem copyMessagePartF_step_pre_err (fuel : Nat) (input delim : Bytes)
    (opts : rewriteOptions) (hdata : headerData) (e : RwError)
    (hh : (copyHeader input opts).res = .ok hdata)
    (hmp : ("multipart/".toList).isPrefixOf hdata.mediaType = true ∧
      hdata.deletePart = false)
    (hbnd : lookupParam hdata.contentParams ("boundary".toList) ≠ [])
    (hpre : (copyBody (copyHeader input opts).rest
      (("--".toList) ++ lookupParam hdata.contentParams ("boundary".toList)) false).res =
      .error e) :
    copyMessagePartF (fuel + 1) input delim opts =
      ⟨(copyHeader input opts).out ++
          (copyBody (copyHeader input opts).rest
            (("--".toList) ++ lookupParam hdata.contentParams ("boundary".toList)) false).out,
        (copyBody (copyHeader input opts).rest
          (("--".toList) ++ lookupParam hdata.contentParams ("boundary".toList)) false).rest,
        .error e⟩ := by
  simp only [copyMessagePartF, hh]
  rw [if_pos hmp, if_neg hbnd]
  simp only [hpre]

theorem copyMessagePartF_step_pre_end (fuel : Nat) (input delim : Bytes)
    (opts : rewriteOptions) (hdata : headerData)
    (hh : (copyHeader input opts).res = .ok hdata)
    (hmp : ("multipart/".toList).isPrefixOf hdata.mediaType = true ∧
      hdata.deletePart = false)
    (hbnd : lookupParam hdata.contentParams ("boundary".toList) ≠ [])
    (hpre : (copyBody (copyHeader input opts).rest
      (("--".toList) ++ lookupParam hdata.contentParams ("boundary".toList)) false).res =
      .ok true) :
    copyMessagePartF (fuel + 1) input delim opts =
      ⟨(copyHeader input opts).out ++
          (copyBody (copyHeader input opts).rest
            (("--".toList) ++ lookupParam hdata.contentParams ("boundary".toList)) false).out ++
          (copyBody (copyBody (copyHeader input opts).rest
              (("--".toList) ++ lookupParam hdata.contentParams ("boundary".toList)) false).rest
            delim hdata.deletePart).out,
        (copyBody (copyBody (copyHeader input opts).rest
            (("--".toList) ++ lookupParam hdata.contentParams ("boundary".toList)) false).rest
          delim hdata.deletePart).rest,
        (copyBody (copyBody (copyHeader input opts).rest
            (("--".toList) ++ lookupParam hdata.contentParams ("boundary".toList)) false).rest
          delim hdata.deletePart).res⟩ := by
  simp only [copyMessagePartF, hh]
  rw [if_pos hmp, if_neg hbnd]
  simp only [hpre]

theorem copyMessagePartF_step_parts (fuel : Nat) (input delim : Bytes)
    (opts : rewriteOptions) (hdata : headerData)
    (hh : (copyHeader input opts).res = .ok hdata)
    (hmp : ("multipart/".toList).isPrefixOf hdata.mediaType = true ∧
      hdata.deletePart = false)
    (hbnd : lookupParam hdata.contentParams ("boundary".toList) ≠ [])
    (hpre : (copyBody (copyHeader input opts).rest
      (("--".toList) ++ lookupParam hdata.contentParams ("boundary".toList)) false).res =
      .ok false) :
    copyMessagePartF (fuel + 1) input delim opts =
      (let subDelim := ("--".toList) ++ lookupParam hdata.contentParams ("boundary".toList)
       let pre := copyBody (copyHeader input opts).rest subDelim false
       let ps := copyPartsF fuel pre.rest subDelim opts
       match ps.res with
       | .error e => ⟨(copyHeader input opts).out ++ pre.out ++ ps.out, ps.rest, .error e⟩
       | .ok _ =>
         let b := copyBody ps.rest delim hdata.deletePart
         ⟨(copyHeader input opts).out ++ pre.out ++ ps.out ++ b.out, b.rest, b.res⟩) := by
  simp only [copyMessagePartF, hh]
  rw [if_pos hmp, if_neg hbnd]
  simp only [hpre]

theorem copyPartsF_step_err (fuel : Nat) (input subDelim : Bytes)
    (opts : rewriteOptions) (e : RwError)
    (hp : (copyMessagePartF fuel input subDelim opts).res = .error e) :
    copyPartsF (fuel + 1) input subDelim opts =
      ⟨(copyMessagePartF fuel input subDelim opts).out,
        (copyMessagePartF fuel input subDelim opts).rest, .error e⟩ := by
  simp [copyPartsF, hp]

theorem copyPartsF_step_end (fuel : Nat) (input subDelim : Bytes)
    (opts : rewriteOptions)
    (hp : (copyMessagePartF fuel input subDelim opts).res = .ok true) :
    copyPartsF (fuel + 1) input subDelim opts =
      ⟨(copyMessagePartF fuel input subDelim opts).out,
        (copyMessagePartF fuel input subDelim opts).rest, .ok ()⟩ := by
  simp [copyPartsF, hp]

theorem copyPartsF_step_more (fuel : Nat) (input subDelim : Bytes)
    (opts : rewriteOptions)
    (hp : (copyMessagePartF fuel input subDelim opts).res = .ok false) :
    copyPartsF (fuel + 1) input subDelim opts =
      ⟨(copyMessagePartF fuel input subDelim opts).out ++
          (copyPartsF fuel (copyMessagePartF fuel input subDelim opts).rest subDelim opts).out,
        (copyPartsF fuel (copyMessagePartF fuel input subDelim opts).rest subDelim opts).rest,
        (copyPartsF fuel (copyMessagePartF fuel input subDelim opts).rest subDelim opts).res⟩ := by
  simp [copyPartsF, hp]

end Rendmail

namespace Rendmail

/-- Combined safety of the part/parts recursion: with well-formed globs
every error is a message-format error, no input reappears, success
consumes at least one byte, and the stated fuel bounds are
sufficient. -/
theorem partPartsF_spec (fuel : Nat) :
    (∀ (input delim : Bytes) (opts : rewriteOptions), globsOK opts →
      2 * input.length < fuel →
      okOrMsg (copyMessagePartF fuel input delim opts).res ∧
      (copyMessagePartF fuel input delim opts).rest.length ≤ input.length ∧
      (∀ e, (copyMessagePartF fuel input delim opts).res = .ok e →
        (copyMessagePartF fuel input delim opts).rest.length < input.length)) ∧
    (∀ (input subDelim : Bytes) (opts : rewriteOptions), globsOK opts →
      2 * input.length + 1 < fuel →
      okOrMsg (copyPartsF fuel input subDelim opts).res ∧
      (copyPartsF fuel input subDelim opts).rest.length ≤ input.length) := by
  induction fuel with
  | zero => exact ⟨fun _ _ _ _ h => by omega, fun _ _ _ _ h => by omega⟩
  | succ fuel ih =>
    obtain ⟨ihA, ihB⟩ := ih
    constructor
    · intro input delim opts hg hf
      obtain ⟨hok, hle, hlt⟩ := copyHeader_spec input opts hg
      match hh : (copyHeader input opts).res with
      | .error e =>
        rw [copyMessagePartF_step_hdr_err fuel input delim opts e hh]
        rcases hok with ⟨a, ha⟩ | ⟨t, ht⟩
        · rw [hh] at ha; cases ha
        · rw [hh] at ht
          cases ht
          exact ⟨Or.inr ⟨_, rfl⟩, hle, by simp⟩
      | .ok hdata =>
        have hn1 : (copyHeader input opts).rest.length < input.length := hlt hdata hh
        by_cases hmp : ("multipart/".toList).isPrefixOf hdata.mediaType = true ∧
            hdata.deletePart = false
        · by_cases hbnd : lookupParam hdata.contentParams ("boundary".toList) = []
          · rw [copyMessagePartF_step_badbnd fuel input delim opts hdata hh hmp hbnd]
            exact ⟨Or.inr ⟨_, rfl⟩, hle, by simp⟩
          · obtain ⟨pok, ple, plt, _⟩ := copyBody_spec (copyHeader input opts).rest
              (("--".toList) ++ lookupParam hdata.contentParams ("boundary".toList)) false
            match hpre : (copyBody (copyHeader input opts).rest
              (("--".toList) ++ lookupParam hdata.contentParams ("boundary".toList))
              false).res with
            | .error e =>
              rw [copyMessagePartF_step_pre_err fuel input delim opts hdata e hh hmp hbnd hpre]
              rcases pok with ⟨a, ha⟩ | ⟨t, ht⟩
              · rw [hpre] at ha; cases ha
              · rw [hpre] at ht
                cases ht
                exact ⟨Or.inr ⟨_, rfl⟩, by dsimp only; omega, by simp⟩
            | .ok true =>
              rw [copyMessagePartF_step_pre_end fuel input delim opts hdata hh hmp hbnd hpre]
              obtain ⟨bok, ble, _, _⟩ := copyBody_spec (copyBody (copyHeader input opts).rest
                (("--".toList) ++ lookupParam hdata.contentParams ("boundary".toList))
                false).rest delim hdata.deletePart
              exact ⟨bok, by dsimp only; omega, fun e _ => by dsimp only; omega⟩
            | .ok false =>
              have hplt := plt hpre
              rw [copyMessagePartF_step_parts fuel input delim opts hdata hh hmp hbnd hpre]
              obtain ⟨psok, psle⟩ := ihB (copyBody (copyHeader input opts).rest
                (("--".toList) ++ lookupParam hdata.contentParams ("boundary".toList))
                false).rest (("--".toList) ++ lookupParam hdata.contentParams ("boundary".toList))
                opts hg (by omega)
              match hps : (copyPartsF fuel (copyBody (copyHeader input opts).rest
                (("--".toList) ++ lookupParam hdata.contentParams ("boundary".toList))
                false).rest (("--".toList) ++ lookupParam hdata.contentParams ("boundary".toList))
                opts).res with
              | .error e =>
                simp only [hps]
                rcases psok with ⟨a, ha⟩ | ⟨t, ht⟩
                · rw [hps] at ha; cases ha
                · rw [hps] at ht
                  cases ht
                  exact ⟨Or.inr ⟨_, rfl⟩, by omega, by simp⟩
              | .ok u =>
                simp only [hps]
                obtain ⟨bok, ble, _, _⟩ := copyBody_spec (copyPartsF fuel
                  (copyBody (copyHeader input opts).rest
                    (("--".toList) ++ lookupParam hdata.contentParams ("boundary".toList))
                    false).rest (("--".toList) ++ lookupParam hdata.contentParams
                    ("boundary".toList)) opts).rest delim hdata.deletePart
                exact ⟨bok, by omega, fun e _ => by omega⟩
        · rw [copyMessagePartF_step_flat fuel input delim opts hdata hh hmp]
          obtain ⟨bok, ble, _, _⟩ := copyBody_spec (copyHeader input opts).rest delim
            hdata.deletePart
          exact ⟨bok, by dsimp only; omega, fun e _ => by dsimp only; omega⟩
    · intro input subDelim opts hg hf
      obtain ⟨pok, ple, plt⟩ := ihA input subDelim opts hg (by omega)
      match hp : (copyMessagePartF fuel input subDelim opts).res with
      | .error e =>
        rw [copyPartsF_step_err fuel input subDelim opts e hp]
        rcases pok with ⟨a, ha⟩ | ⟨t, ht⟩
        · rw [hp] at ha; cases ha
        · rw [hp] at ht
          cases ht
          exact ⟨Or.inr ⟨_, rfl⟩, ple⟩
      | .ok true =>
        rw [copyPartsF_step_end fuel input subDelim opts hp]
        exact ⟨Or.inl ⟨(), rfl⟩, ple⟩
      | .ok false =>
        have hplt := plt false hp
        rw [copyPartsF_step_more fuel input subDelim opts hp]
        obtain ⟨psok, psle⟩ := ihB (copyMessagePartF fuel input subDelim opts).rest
          subDelim opts hg (by omega)
        exact ⟨psok, by dsimp only; omega⟩

end Rendmail

namespace Rendmail

/-- `copyHeader` under the identity options: bytes preserved, no part
marked for deletion. -/
theorem copyHeader_verbatim (input : Bytes) (opts : rewriteOptions)
    (hDel : opts.DeleteMediaTypes = []) (hDS : opts.DecodeSubject = false) :
    (copyHeader input opts).out ++ (copyHeader input opts).rest = input ∧
    (∀ d, (copyHeader input opts).res = .ok d → d.deletePart = false) :=
  copyHeaderLoopF_verbatim (input.length + 1) input opts [] false
    ⟨defaultMediaType, defaultContentParams, false⟩ (by omega) hDel hDS rfl

/-- Empty delete and keep lists make every options value glob-safe. -/
theorem globsOK_of_empty (opts : rewriteOptions)
    (hDel : opts.DeleteMediaTypes = []) (hKeep : opts.KeepMediaTypes = []) :
    globsOK opts := by
  intro p m hp
  rcases hp with hp | hp
  · rw [hDel] at hp; cases hp
  · rw [hKeep] at hp; cases hp

/-- With empty delete and keep lists and subject decoding off, the part
copier writes exactly the bytes it consumes, whatever the outcome. -/
theorem partPartsF_verbatim (fuel : Nat) :
    (∀ (input delim : Bytes) (opts : rewriteOptions),
      opts.DeleteMediaTypes = [] → opts.KeepMediaTypes = [] →
      opts.DecodeSubject = false → 2 * input.length < fuel →
      (copyMessagePartF fuel input delim opts).out ++
        (copyMessagePartF fuel input delim opts).rest = input) ∧
    (∀ (input subDelim : Bytes) (opts : rewriteOptions),
      opts.DeleteMediaTypes = [] → opts.KeepMediaTypes = [] →
      opts.DecodeSubject = false → 2 * input.length + 1 < fuel →
      (copyPartsF fuel input subDelim opts).out ++
        (copyPartsF fuel input subDelim opts).rest = input) := by
  induction fuel with
  | zero => exact ⟨fun _ _ _ _ _ _ h => by omega, fun _ _ _ _ _ _ h => by omega⟩
  | succ fuel ih =>
    obtain ⟨ihA, ihB⟩ := ih
    constructor
    · intro input delim opts hDel hKeep hDS hf
      have hg : globsOK opts := globsOK_of_empty opts hDel hKeep
      obtain ⟨hhv, hhdp⟩ := copyHeader_verbatim input opts hDel hDS
      obtain ⟨hok, hle, hlt⟩ := copyHeader_spec input opts hg
      match hh : (copyHeader input opts).res with
      | .error e =>
        rw [copyMessagePartF_step_hdr_err fuel input delim opts e hh]
        exact hhv
      | .ok hdata =>
        have hdp : hdata.deletePart = false := hhdp hdata hh
        have hn1 := hlt hdata hh
        by_cases hmp : ("multipart/".toList).isPrefixOf hdata.mediaType = true ∧
            hdata.deletePart = false
        · by_cases hbnd : lookupParam hdata.contentParams ("boundary".toList) = []
          · rw [copyMessagePartF_step_badbnd fuel input delim opts hdata hh hmp hbnd]
            exact hhv
          · obtain ⟨pok, ple, plt, pv⟩ := copyBody_spec (copyHeader input opts).rest
              (("--".toList) ++ lookupParam hdata.contentParams ("boundary".toList)) false
            have hpv := pv rfl
            match hpre : (copyBody (copyHeader input opts).rest
              (("--".toList) ++ lookupParam hdata.contentParams ("boundary".toList))
              false).res with
            | .error e =>
              rw [copyMessagePartF_step_pre_err fuel input delim opts hdata e hh hmp hbnd hpre]
              dsimp only
              rw [List.append_assoc, hpv, hhv]
            | .ok true =>
              rw [copyMessagePartF_step_pre_end fuel input delim opts hdata hh hmp hbnd hpre]
              obtain ⟨-, -, -, bv⟩ := copyBody_spec (copyBody (copyHeader input opts).rest
                (("--".toList) ++ lookupParam hdata.contentParams ("boundary".toList))
                false).rest delim hdata.deletePart
              have hbv := bv hdp
              dsimp only
              rw [List.append_assoc, List.append_assoc, hbv, hpv, hhv]
            | .ok false =>
              have hplt := plt hpre
              rw [copyMessagePartF_step_parts fuel input delim opts hdata hh hmp hbnd hpre]
              have hpsv := ihB (copyBody (copyHeader input opts).rest
                (("--".toList) ++ lookupParam hdata.contentParams ("boundary".toList))
                false).rest (("--".toList) ++ lookupParam hdata.contentParams ("boundary".toList))
                opts hDel hKeep hDS (by omega)
              match hps : (copyPartsF fuel (copyBody (copyHeader input opts).rest
                (("--".toList) ++ lookupParam hdata.contentParams ("boundary".toList))
                false).rest (("--".toList) ++ lookupParam hdata.contentParams ("boundary".toList))
                opts).res with
              | .error e =>
                simp only [hps]
                rw [List.append_assoc, List.append_assoc, hpsv, hpv, hhv]
              | .ok u =>
                simp only [hps]
                obtain ⟨-, -, -, bv⟩ := copyBody_spec (copyPartsF fuel
                  (copyBody (copyHeader input opts).rest
                    (("--".toList) ++ lookupParam hdata.contentParams ("boundary".toList))
                    false).rest (("--".toList) ++ lookupParam hdata.contentParams
                    ("boundary".toList)) opts).rest delim hdata.deletePart
                have hbv := bv hdp
                rw [List.append_assoc, List.append_assoc, List.append_assoc, hbv, hpsv,
                  hpv, hhv]
        · rw [copyMessagePartF_step_flat fuel input delim opts hdata hh hmp]
          obtain ⟨-, -, -, bv⟩ := copyBody_spec (copyHeader input opts).rest delim
            hdata.deletePart
          have hbv := bv hdp
          dsimp only
          rw [List.append_assoc, hbv, hhv]
    · intro input subDelim opts hDel hKeep hDS hf
      have hg : globsOK opts := globsOK_of_empty opts hDel hKeep
      have hpv := ihA input subDelim opts hDel hKeep hDS (by omega)
      obtain ⟨pok, ple, plt⟩ := (partPartsF_spec fuel).1 input subDelim opts hg (by omega)
      match hp : (copyMessagePartF fuel input subDelim opts).res with
      | .error e =>
        rw [copyPartsF_step_err fuel input subDelim opts e hp]
        exact hpv
      | .ok true =>
        rw [copyPartsF_step_end fuel input subDelim opts hp]
        exact hpv
      | .ok false =>
        have hplt := plt false hp
        rw [copyPartsF_step_more fuel input subDelim opts hp]
        have hpsv := ihB (copyMessagePartF fuel input subDelim opts).rest subDelim opts
          hDel hKeep hDS (by omega)
        dsimp only
        rw [List.append_assoc, hpsv, hpv]

end Rendmail

namespace Rendmail

/-- At the top level (empty delimiter) a successful part copy always
consumes the whole input. -/
theorem copyMessagePartF_nil_rest (fuel : Nat) (input : Bytes) (opts : rewriteOptions)
    (e : Bool) (h : (copyMessagePartF fuel input [] opts).res = .ok e) :
    (copyMessagePartF fuel input [] opts).rest = [] := by
  match fuel with
  | 0 => simp [copyMessagePartF] at h
  | fuel + 1 =>
    match hh : (copyHeader input opts).res with
    | .error e2 =>
      rw [copyMessagePartF_step_hdr_err fuel input [] opts e2 hh] at h
      cases h
    | .ok hdata =>
      by_cases hmp : ("multipart/".toList).isPrefixOf hdata.mediaType = true ∧
          hdata.deletePart = false
      · by_cases hbnd : lookupParam hdata.contentParams ("boundary".toList) = []
        · rw [copyMessagePartF_step_badbnd fuel input [] opts hdata hh hmp hbnd] at h
          cases h
        · match hpre : (copyBody (copyHeader input opts).rest
            (("--".toList) ++ lookupParam hdata.contentParams ("boundary".toList))
            false).res with
          | .error e2 =>
            rw [copyMessagePartF_step_pre_err fuel input [] opts hdata e2 hh hmp hbnd hpre] at h
            cases h
          | .ok true =>
            rw [copyMessagePartF_step_pre_end fuel input [] opts hdata hh hmp hbnd hpre]
            rw [copyBody_nil_delim]
          | .ok false =>
            rw [copyMessagePartF_step_parts fuel input [] opts hdata hh hmp hbnd hpre]
            rw [copyMessagePartF_step_parts fuel input [] opts hdata hh hmp hbnd hpre] at h
            match hps : (copyPartsF fuel (copyBody (copyHeader input opts).rest
              (("--".toList) ++ lookupParam hdata.contentParams ("boundary".toList))
              false).rest (("--".toList) ++ lookupParam hdata.contentParams ("boundary".toList))
              opts).res with
            | .error e2 =>
              simp only [hps] at h
              cases h
            | .ok u =>
              simp only [hps]
              rw [copyBody_nil_delim]
      · rw [copyMessagePartF_step_flat fuel input [] opts hdata hh hmp]
        rw [copyBody_nil_delim]

/-- Claim C1 core: with empty delete/keep lists, subject decoding off
and non-strict mode, `rewriteMessage` succeeds and reproduces the
input byte-for-byte. -/
theorem rewriteMessage_id (input : Bytes) (opts : rewriteOptions)
    (hDel : opts.DeleteMediaTypes = []) (hKeep : opts.KeepMediaTypes = [])
    (hDS : opts.DecodeSubject = false) (hStrict : opts.Strict = false) :
    rewriteMessage input opts = (input, none) := by
  have hg : globsOK opts := globsOK_of_empty opts hDel hKeep
  have hv := (partPartsF_verbatim (2 * input.length + 1)).1 input [] opts hDel hKeep hDS
    (by omega)
  obtain ⟨hok, -, -⟩ := (partPartsF_spec (2 * input.length + 1)).1 input [] opts hg
    (by omega)
  show (match (copyMessagePart input [] opts).res with
    | .error (.msg t) => if !opts.Strict then
        ((copyMessagePart input [] opts).out ++ (copyMessagePart input [] opts).rest, none)
      else ((copyMessagePart input [] opts).out, some (.msg t))
    | .error e => ((copyMessagePart input [] opts).out, some e)
    | .ok _ => ((copyMessagePart input [] opts).out, none)) = (input, none)
  have hv' : (copyMessagePart input [] opts).out ++ (copyMessagePart input [] opts).rest =
      input := hv
  rcases hok with ⟨a, ha⟩ | ⟨t, ht⟩
  · have ha' : (copyMessagePart input [] opts).res = .ok a := ha
    have hrest : (copyMessagePart input [] opts).rest = [] :=
      copyMessagePartF_nil_rest (2 * input.length + 1) input opts a ha
    have hout : (copyMessagePart input [] opts).out = input := by
      rw [hrest] at hv'
      simpa using hv'
    rw [ha', hout]
  · have ht' : (copyMessagePart input [] opts).res = .error (.msg t) := ht
    rw [ht', hStrict]
    simp [hv']

end Rendmail

namespace Rendmail

/-- Claim C10 core: lenient mode with well-formed globs always reports
success. -/
theorem rewriteMessage_lenient_total (input : Bytes) (opts : rewriteOptions)
    (hg : globsOK opts) (hStrict : opts.Strict = false) :
    (rewriteMessage input opts).2 = none := by
  obtain ⟨hok, -, -⟩ := (partPartsF_spec (2 * input.length + 1)).1 input [] opts hg
    (by omega)
  rcases hok with ⟨a, ha⟩ | ⟨t, ht⟩
  · have ha' : (copyMessagePart input [] opts).res = .ok a := ha
    simp [rewriteMessage, ha']
  · have ht' : (copyMessagePart input [] opts).res = .error (.msg t) := ht
    simp [rewriteMessage, ht', hStrict]

end Rendmail

namespace Rendmail


/-- The header loop does not depend on the fuel once it exceeds the
input length. -/
theorem copyHeaderLoopF_irrel (f1 : Nat) :
    ∀ (f2 : Nat) (input : Bytes) (opts : rewriteOptions) (term0 : Bytes)
      (gotCT : Bool) (data : headerData),
      input.length < f1 → input.length < f2 →
      copyHeaderLoopF f1 input opts term0 gotCT data =
        copyHeaderLoopF f2 input opts term0 gotCT data := by
  induction f1 with
  | zero => intro f2 input _ _ _ _ h _; omega
  | succ f1 ih =>
    intro f2 input opts term0 gotCT data h1 h2
    match f2, h2 with
    | f2 + 1, h2 =>
      match hrf : readFoldedLine input with
      | none =>
        rw [copyHeaderLoopF_step_eof f1 input opts term0 gotCT data hrf,
          copyHeaderLoopF_step_eof f2 input opts term0 gotCT data hrf]
      | some (folded, unfolded, rest1) =>
        obtain ⟨hfne, hflat, hunf, htail, hblank, hnext, hlt⟩ :=
          readFoldedLine_spec input folded unfolded rest1 hrf
        by_cases hu : unfolded = []
        · rw [copyHeaderLoopF_step_blank f1 input opts term0 gotCT data folded unfolded
            rest1 hrf hu (hblank hu),
            copyHeaderLoopF_step_blank f2 input opts term0 gotCT data folded unfolded
            rest1 hrf hu (hblank hu)]
        · match hpf : parseHeaderField unfolded with
          | none =>
            rw [copyHeaderLoopF_step_malformed f1 input opts term0 gotCT data folded
              unfolded rest1 hrf hu hpf,
              copyHeaderLoopF_step_malformed f2 input opts term0 gotCT data folded
              unfolded rest1 hrf hu hpf]
          | some (key, val) =>
            by_cases hct : key = ("Content-Type".toList) ∧ gotCT = false
            · obtain ⟨hkey, hgot⟩ := hct
              subst hgot
              match hdel : shouldDelete (resolveContentType val).1 opts.DeleteMediaTypes
                opts.KeepMediaTypes with
              | .error e =>
                rw [copyHeaderLoopF_step_ct_err f1 input opts term0 data folded unfolded
                  rest1 key val e hrf hu hpf hkey hdel,
                  copyHeaderLoopF_step_ct_err f2 input opts term0 data folded unfolded
                  rest1 key val e hrf hu hpf hkey hdel]
              | .ok del =>
                rw [copyHeaderLoopF_step_ct f1 input opts term0 data folded unfolded
                  rest1 key val del hrf hu hpf hkey hdel,
                  copyHeaderLoopF_step_ct f2 input opts term0 data folded unfolded
                  rest1 key val del hrf hu hpf hkey hdel,
                  ih f2 rest1 opts (termSel term0 folded) true
                    ⟨(resolveContentType val).1, (resolveContentType val).2, del⟩
                    (by omega) (by omega)]
            · by_cases hsubj : key = ("Subject".toList) ∧ opts.DecodeSubject = true
              · obtain ⟨hkey, hds⟩ := hsubj
                subst hkey
                rw [copyHeaderLoopF_step_subject f1 input opts term0 gotCT data folded
                  unfolded rest1 val hrf hu hpf hds,
                  copyHeaderLoopF_step_subject f2 input opts term0 gotCT data folded
                  unfolded rest1 val hrf hu hpf hds,
                  ih f2 rest1 opts (termSel term0 folded) gotCT data (by omega) (by omega)]
              · rw [copyHeaderLoopF_step_other f1 input opts term0 gotCT data folded
                  unfolded rest1 key val hrf hu hpf hct hsubj,
                  copyHeaderLoopF_step_other f2 input opts term0 gotCT data folded
                  unfolded rest1 key val hrf hu hpf hct hsubj,
                  ih f2 rest1 opts (termSel term0 folded) gotCT data (by omega) (by omega)]

end Rendmail

namespace Rendmail

/-- After the first-Content-Type latch is set, the header loop writes
every consumed byte in order (new lines may be inserted, nothing
original is dropped or reordered): the consumed prefix is a sublist of
the output. -/
theorem copyHeaderLoopF_sublist (fuel : Nat) :
    ∀ (input : Bytes) (opts : rewriteOptions) (term0 : Bytes) (data : headerData),
      input.length < fuel →
      ∃ consumed, input = consumed ++ (copyHeaderLoopF fuel input opts term0 true data).rest ∧
        consumed.Sublist (copyHeaderLoopF fuel input opts term0 true data).out := by
  induction fuel with
  | zero => intro input _ _ _ h; omega
  | succ fuel ih =>
    intro input opts term0 data h
    match hrf : readFoldedLine input with
    | none =>
      rw [copyHeaderLoopF_step_eof fuel input opts term0 true data hrf]
      exact ⟨[], rfl, List.Sublist.refl _⟩
    | some (folded, unfolded, rest1) =>
      obtain ⟨hfne, hflat, hunf, htail, hblank, hnext, hlt⟩ :=
        readFoldedLine_spec input folded unfolded rest1 hrf
      by_cases hu : unfolded = []
      · have hlen1 := hblank hu
        rw [copyHeaderLoopF_step_blank fuel input opts term0 true data folded unfolded
          rest1 hrf hu hlen1]
        refine ⟨folded.headD [], ?_, List.Sublist.refl _⟩
        match folded, hlen1 with
        | [l], _ => simpa using hflat.symm
      · match hpf : parseHeaderField unfolded with
        | none =>
          rw [copyHeaderLoopF_step_malformed fuel input opts term0 true data folded
            unfolded rest1 hrf hu hpf]
          exact ⟨folded.flatten, hflat.symm, List.Sublist.refl _⟩
        | some (key, val) =>
          have hct : ¬(key = ("Content-Type".toList) ∧ (true : Bool) = false) := by
            rintro ⟨-, hbad⟩
            cases hbad
          by_cases hsubj : key = ("Subject".toList) ∧ opts.DecodeSubject = true
          · obtain ⟨hkey, hds⟩ := hsubj
            subst hkey
            rw [copyHeaderLoopF_step_subject fuel input opts term0 true data folded
              unfolded rest1 val hrf hu hpf hds]
            obtain ⟨consumed, hc1, hc2⟩ := ih rest1 opts (termSel term0 folded) data
              (by omega)
            refine ⟨folded.flatten ++ consumed, ?_, ?_⟩
            · dsimp only
              rw [← hflat, List.append_assoc]
              exact congrArg _ hc1
            · dsimp only
              rw [List.append_assoc]
              exact (hc2.trans (List.sublist_append_right _ _)).append_left _
          · rw [copyHeaderLoopF_step_other fuel input opts term0 true data folded
              unfolded rest1 key val hrf hu hpf hct hsubj]
            obtain ⟨consumed, hc1, hc2⟩ := ih rest1 opts (termSel term0 folded) data
              (by omega)
            refine ⟨folded.flatten ++ consumed, ?_, ?_⟩
            · dsimp only
              rw [← hflat, List.append_assoc]
              exact congrArg _ hc1
            · dsimp only
              exact hc2.append_left _

/-- `copyBody` for a deleted part: everything up to the delimiter line
is discarded, the delimiter line is the only output. -/
theorem copyBodyF_deleted (fuel : Nat) :
    ∀ (input delim : Bytes), delim ≠ [] → input.length < fuel →
      ∀ e, (copyBodyF fuel input delim true).res = .ok e →
      ∃ skipped ln, input = skipped ++ ln ++ (copyBodyF fuel input delim true).rest ∧
        (copyBodyF fuel input delim true).out = ln ∧ delim.isPrefixOf ln = true := by
  induction fuel with
  | zero => intro input delim _ h; omega
  | succ fuel ih =>
    intro input delim hdne h e hres
    match hrl : readLine input with
    | none =>
      have hstep : copyBodyF (fuel + 1) input delim true =
          ⟨[], input, .error (.msg "EOF while looking for delimiter")⟩ := by
        simp [copyBodyF, hrl, hdne]
      rw [hstep] at hres
      cases hres
    | some (ln0, rest0) =>
      obtain ⟨happ, hlnne⟩ := readLine_some input ln0 rest0 hrl
      have hlt := readLine_some_length input ln0 rest0 hrl
      by_cases hd : (!delim.isEmpty && delim.isPrefixOf ln0) = true
      · have hstep : copyBodyF (fuel + 1) input delim true =
            ⟨if !true || (!delim.isEmpty && delim.isPrefixOf ln0) then ln0 else [],
             rest0, .ok (("--".toList).isPrefixOf (ln0.drop delim.length))⟩ := by
          simp only [copyBodyF, hrl, hd, if_pos rfl, if_true]
        rw [hstep]
        refine ⟨[], ln0, by simpa using happ.symm, by simp [hd], ?_⟩
        simp only [Bool.and_eq_true] at hd
        exact hd.2
      · have hstep : copyBodyF (fuel + 1) input delim true =
            ⟨(if !true || (!delim.isEmpty && delim.isPrefixOf ln0) then ln0 else []) ++
               (copyBodyF fuel rest0 delim true).out,
             (copyBodyF fuel rest0 delim true).rest,
             (copyBodyF fuel rest0 delim true).res⟩ := by
          simp only [copyBodyF, hrl, hd, if_false, Bool.false_eq_true]
        rw [hstep] at hres ⊢
        obtain ⟨skipped, ln, hs1, hs2, hs3⟩ := ih rest0 delim hdne (by omega) e hres
        refine ⟨ln0 ++ skipped, ln, ?_, ?_, hs3⟩
        · dsimp only
          rw [← happ]
          conv_lhs => rw [hs1]
          simp [List.append_assoc]
        · dsimp only
          rw [hs2]
          simp [hd]

end Rendmail

namespace Rendmail

/-! ## Auxiliary facts for the policy claims -/

theorem keepLoop_error_other (m : Bytes) (keep : List Bytes) (e : RwError)
    (h : keepLoop m keep = .error e) : ∃ t, e = .other t := by
  induction keep with
  | nil => cases h
  | cons kp rest ih =>
    match hm : filepathMatch kp m with
    | none =>
      simp only [keepLoop, hm] at h
      cases h
      exact ⟨_, rfl⟩
    | some true => simp [keepLoop, hm] at h
    | some false =>
      simp only [keepLoop, hm] at h
      exact ih h

theorem shouldDelete_error_other (m : Bytes) (del keep : List Bytes) (e : RwError)
    (h : shouldDelete m del keep = .error e) : ∃ t, e = .other t := by
  induction del with
  | nil => cases h
  | cons dp rest ih =>
    match hm : filepathMatch dp m with
    | none =>
      simp only [shouldDelete, hm] at h
      cases h
      exact ⟨_, rfl⟩
    | some true =>
      simp only [shouldDelete, hm] at h
      exact keepLoop_error_other m keep e h
    | some false =>
      simp only [shouldDelete, hm] at h
      exact ih h

theorem keepLoop_all (m : Bytes) (keep : List Bytes)
    (h : ∀ k ∈ keep, ∃ b, filepathMatch k m = some b) :
    keepLoop m keep = .ok (decide (∀ k ∈ keep, filepathMatch k m ≠ some true)) := by
  induction keep with
  | nil => rfl
  | cons kp rest ih =>
    obtain ⟨b, hb⟩ := h kp (by simp)
    cases b with
    | true =>
      simp only [keepLoop, hb]
      congr 1
      symm
      rw [decide_eq_false_iff_not]
      intro hall
      exact hall kp (by simp) hb
    | false =>
      simp only [keepLoop, hb]
      rw [ih fun k hk => h k (by simp [hk])]
      congr 1
      by_cases hall : ∀ k ∈ rest, filepathMatch k m ≠ some true
      · simp [hall, hb]
      · simp [hall]

/-! ## The claims -/

/-- Claim C1: with empty `DeleteMediaTypes` and `KeepMediaTypes`,
`DecodeSubject` false and `Strict` false, `rewriteMessage` succeeds on
every finite input and writes exactly the input bytes, terminators,
folding and casing included. -/
theorem claim_C1 (input : Bytes) (now : GoTime) :
    rewriteMessage input ⟨[], [], now, false, false⟩ = (input, none) :=
  rewriteMessage_id input ⟨[], [], now, false, false⟩ rfl rfl rfl rfl

/-- Claim C2: `rewriteMessage` distinguishes message-format errors from
other errors: in strict mode the message-format error is returned with
the output possibly partially written; in lenient mode every remaining
unread input byte is appended to the output verbatim and nil is
returned; any other error is returned immediately in either mode with
no recovery. -/
theorem claim_C2 (input : Bytes) (opts : rewriteOptions) :
    (∀ t, (copyMessagePart input [] opts).res = .error (.msg t) → opts.Strict = true →
      rewriteMessage input opts = ((copyMessagePart input [] opts).out, some (.msg t))) ∧
    (∀ t, (copyMessagePart input [] opts).res = .error (.msg t) → opts.Strict = false →
      rewriteMessage input opts =
        ((copyMessagePart input [] opts).out ++ (copyMessagePart input [] opts).rest,
          none)) ∧
    (∀ t, (copyMessagePart input [] opts).res = .error (.other t) →
      rewriteMessage input opts = ((copyMessagePart input [] opts).out,
        some (.other t))) := by
  refine ⟨fun t h hs => ?_, fun t h hs => ?_, fun t h => ?_⟩
  · simp [rewriteMessage, h, hs]
  · simp [rewriteMessage, h, hs]
  · simp [rewriteMessage, h]


theorem claim_C2_witness :
    rewriteMessage (("A: b\n").toList) ⟨[], [], tTest, false, true⟩ =
      ((("A: b\n").toList), some (.msg "missing body")) ∧
    rewriteMessage (("A: b\n").toList) ⟨[], [], tTest, false, false⟩ =
      ((("A: b\n").toList), none) ∧
    rewriteMessage (("Content-Type: a/b\n").toList)
        ⟨[("[").toList], [], tTest, false, false⟩ =
      ([], some (.other "syntax error in pattern")) := by
  refine ⟨?_, ?_, ?_⟩
  · have h := (claim_C2 (("A: b\n").toList) ⟨[], [], tTest, false, true⟩).1
      "missing body" (by decide) rfl
    rw [h]
    decide
  · have h := (claim_C2 (("A: b\n").toList) ⟨[], [], tTest, false, false⟩).2.1
      "missing body" (by decide) rfl
    rw [h]
    decide
  · have h := (claim_C2 (("Content-Type: a/b\n").toList)
      ⟨[("[").toList], [], tTest, false, false⟩).2.2
      "syntax error in pattern" (by decide)
    rw [h]
    decide

/-- Claim C5: `shouldDelete` iterates the delete globs in order; the
first match is checked against every keep glob and only that one is;
no delete match means keep; plus the literal decision table. -/
theorem claim_C5 :
    (∀ (m : Bytes) (del1 : List Bytes) (g : Bytes) (del2 keep : List Bytes),
      (∀ d ∈ del1, filepathMatch d m = some false) →
      filepathMatch g m = some true →
      (∀ k ∈ keep, ∃ b, filepathMatch k m = some b) →
      shouldDelete m (del1 ++ g :: del2) keep =
        .ok (decide (∀ k ∈ keep, filepathMatch k m ≠ some true))) ∧
    (∀ (m : Bytes) (del keep : List Bytes),
      (∀ d ∈ del, filepathMatch d m = some false) →
      shouldDelete m del keep = .ok false) ∧
    shouldDelete (("image/jpeg").toList) [("audio/*").toList, ("image/*").toList] [] =
      .ok true ∧
    shouldDelete (("image/jpeg").toList) [("audio/*").toList, ("image/*").toList]
      [("image/jpeg").toList] = .ok false ∧
    shouldDelete (("text/plain").toList) [("audio/*").toList, ("image/*").toList] [] =
      .ok false := by
  refine ⟨?_, ?_, by decide, by decide, by decide⟩
  · intro m del1 g del2 keep h1 hg hk
    induction del1 with
    | nil =>
      simp only [List.nil_append, shouldDelete, hg]
      exact keepLoop_all m keep hk
    | cons d dtl ih =>
      have hd := h1 d (by simp)
      simp only [List.cons_append, shouldDelete, hd]
      exact ih fun x hx => h1 x (by simp [hx])
  · intro m del keep h
    induction del with
    | nil => rfl
    | cons d dtl ih =>
      have hd := h d (by simp)
      simp only [shouldDelete, hd]
      exact ih fun x hx => h x (by simp [hx])

theorem claim_C5_witness :
    shouldDelete (("image/jpeg").toList)
      [("audio/*").toList, ("image/*").toList, ("[").toList]
      [("image/png").toList, ("image/jpeg").toList] = .ok false := by
  have h := (claim_C5).1 (("image/jpeg").toList) [("audio/*").toList]
    (("image/*").toList) [("[").toList]
    [("image/png").toList, ("image/jpeg").toList]
    (by decide) (by decide)
    (by decide)
  rw [show ([("audio/*").toList] ++ ("image/*").toList :: [("[").toList] :
    List Bytes) = [("audio/*").toList, ("image/*").toList, ("[").toList] from rfl] at h
  rw [h]
  decide

/-- Claim C7: `readFoldedLine` returns the ordered physical lines of
one logical header line with terminators intact, the unfolded value
with only the terminators removed, a singleton fold for a blank line,
and leaves the first non-continuation line unconsumed. -/
theorem claim_C7 (input : Bytes) (folded : List Bytes) (unfolded rest : Bytes)
    (h : readFoldedLine input = some (folded, unfolded, rest)) :
    folded ≠ [] ∧
    folded.flatten ++ rest = input ∧
    unfolded = (folded.map trimCRLF).flatten ∧
    (∀ ln ∈ folded.tail, ∃ c, ln.head? = some c ∧ isWS c) ∧
    (unfolded = [] → folded.length = 1) ∧
    (unfolded ≠ [] → rest = [] ∨ ∃ c, rest.head? = some c ∧ ¬ isWS c) ∧
    readLine rest = readLine rest ∧
    rest.length < input.length := by
  obtain ⟨h1, h2, h3, h4, h5, h6, h7⟩ := readFoldedLine_spec input folded unfolded rest h
  exact ⟨h1, h2, h3, h4, h5, h6, rfl, h7⟩

theorem claim_C7_witness :
    (["A: b\n".toList, " x\n".toList] : List Bytes) ≠ [] ∧
    (["A: b\n".toList, " x\n".toList] : List Bytes).flatten ++ ("C: d\n").toList =
      ("A: b\n x\nC: d\n").toList ∧
    ("A: b x").toList = ((["A: b\n".toList, " x\n".toList] : List Bytes).map
      trimCRLF).flatten ∧
    (∀ ln ∈ (["A: b\n".toList, " x\n".toList] : List Bytes).tail,
      ∃ c, ln.head? = some c ∧ isWS c) ∧
    (("A: b x").toList = [] → (["A: b\n".toList, " x\n".toList] : List Bytes).length = 1) ∧
    (("A: b x").toList ≠ [] → ("C: d\n").toList = [] ∨
      ∃ c, ("C: d\n").toList.head? = some c ∧ ¬ isWS c) ∧
    readLine (("C: d\n").toList) = readLine (("C: d\n").toList) ∧
    ("C: d\n").toList.length < ("A: b\n x\nC: d\n").toList.length :=
  claim_C7 (("A: b\n x\nC: d\n").toList) ["A: b\n".toList, " x\n".toList]
    (("A: b x").toList) (("C: d\n").toList) (by decide)

/-- Claim C9: a malformed glob is a configuration error, not a
message-format error: `shouldDelete` never produces the `msgError`
variant, the first bad pattern reached aborts the scan, and
`rewriteMessage` propagates such an error to the caller even in
non-strict mode, with no verbatim-copy recovery. -/
theorem claim_C9 :
    (∀ (m : Bytes) (del keep : List Bytes) (e : RwError),
      shouldDelete m del keep = .error e → ∃ t, e = .other t) ∧
    (∀ (input : Bytes) (opts : rewriteOptions) (t : String),
      (copyMessagePart input [] opts).res = .error (.other t) →
      rewriteMessage input opts = ((copyMessagePart input [] opts).out,
        some (.other t))) ∧
    (∀ (m : Bytes) (del1 : List Bytes) (p : Bytes) (del2 keep : List Bytes),
      (∀ d ∈ del1, filepathMatch d m = some false) → filepathMatch p m = none →
      shouldDelete m (del1 ++ p :: del2) keep =
        .error (.other "syntax error in pattern")) := by
  refine ⟨shouldDelete_error_other, fun input opts t h => ?_, ?_⟩
  · simp [rewriteMessage, h]
  · intro m del1 p del2 keep h1 hp
    induction del1 with
    | nil => simp [shouldDelete, hp]
    | cons d dtl ih =>
      have hd := h1 d (by simp)
      simp only [List.cons_append, shouldDelete, hd]
      exact ih fun x hx => h1 x (by simp [hx])

theorem claim_C9_witness :
    (∃ t, (RwError.other "syntax error in pattern") = RwError.other t) ∧
    rewriteMessage (("Content-Type: a/b\nX: y\n\nbody\n").toList)
        ⟨[("[").toList], [], tTest, false, false⟩ =
      ([], some (.other "syntax error in pattern")) ∧
    shouldDelete (("a/b").toList) [("[").toList, ("*badkeep").toList] [("a/*").toList] =
      .error (.other "syntax error in pattern") := by
  refine ⟨?_, ?_, ?_⟩
  · exact (claim_C9).1 (("a/b").toList) [("[").toList] [] _ (by decide)
  · have h := (claim_C9).2.1 (("Content-Type: a/b\nX: y\n\nbody\n").toList)
      ⟨[("[").toList], [], tTest, false, false⟩ "syntax error in pattern" (by decide)
    rw [h]
    decide
  · have h := (claim_C9).2.2 (("a/b").toList) [] (("[").toList) [("*badkeep").toList]
      [("a/*").toList] (by decide) (by decide)
    exact h

/-- Claim C10: lenient totality; with well-formed globs and strict off,
`rewriteMessage` reports success, every engine failure is a
message-format error, and the "blank line is folded" branch is
unreachable because a blank logical line is always a singleton fold. -/
theorem claim_C10 (input : Bytes) (opts : rewriteOptions)
    (hg : globsOK opts) (hs : opts.Strict = false) :
    (rewriteMessage input opts).2 = none ∧
    okOrMsg (copyMessagePart input [] opts).res ∧
    (∀ (inp : Bytes) (f : List Bytes) (u r : Bytes),
      readFoldedLine inp = some (f, u, r) → u = [] → f.length = 1) := by
  refine ⟨rewriteMessage_lenient_total input opts hg hs, ?_, ?_⟩
  · exact ((partPartsF_spec (2 * input.length + 1)).1 input [] opts hg (by omega)).1
  · intro inp f u r h hu
    exact (readFoldedLine_spec inp f u r h).2.2.2.2.1 hu

theorem claim_C10_witness :
    (rewriteMessage (("Content-Type: multipart/mixed; boundary=X\n\ntruncated\n").toList)
      ⟨[], [], tTest, false, false⟩).2 = none := by
  have h := claim_C10 (("Content-Type: multipart/mixed; boundary=X\n\ntruncated\n").toList)
    ⟨[], [], tTest, false, false⟩
    (globsOK_of_empty ⟨[], [], tTest, false, false⟩ rfl rfl) rfl
  exact h.1

end Rendmail

namespace Rendmail

/-! ## Fold/unfold lemmas for claim C8 -/

/-- Unfolding one produced physical line: `trimCRLF` removes exactly
the appended terminator when the content is CR-free. -/
theorem trimCRLF_append_term (x t : Bytes)
    (hx : ∀ c ∈ x, c ≠ '\r')
    (ht : t = ("\n").toList ∨ t = ("\r\n").toList) :
    trimCRLF (x ++ t) = x := by
  have hxr : x.getLast? ≠ some '\r' := by
    intro hr
    obtain ⟨ys, hys⟩ := List.getLast?_eq_some_iff.mp hr
    exact hx '\r' (by rw [hys]; simp) rfl
  rcases ht with ht | ht <;> subst ht
  · show trimCRLF (x ++ ['\n']) = x
    unfold trimCRLF
    simp only [List.getLast?_concat, List.dropLast_concat]
  · show trimCRLF (x ++ ['\r', '\n']) = x
    unfold trimCRLF
    have h1 : x ++ ['\r', '\n'] = (x ++ ['\r']) ++ ['\n'] := by simp
    rw [h1]
    simp only [List.getLast?_concat, List.dropLast_concat]

end Rendmail

namespace Rendmail

/-- Token concatenation: the fold tokenizer loses nothing when the
input does not end in whitespace. -/
theorem foldTokensF_flatten (fuel : Nat) :
    ∀ s : Bytes, s.length < fuel →
      (∀ c, s.getLast? = some c → isWS c = false) →
      (foldTokensF fuel s).flatten = s := by
  induction fuel with
  | zero => intro s h _; omega
  | succ fuel ih =>
    intro s h hlast
    match hm : s.dropWhile isWS with
    | [] =>
      have hsnil : s = [] := by
        by_contra hne
        obtain ⟨c, hc⟩ : ∃ c, s.getLast? = some c := by
          cases hgl : s.getLast? with
          | none => exact absurd (List.getLast?_eq_none_iff.mp hgl) hne
          | some c => exact ⟨c, rfl⟩
        have hs_eq : s = s.takeWhile isWS := by
          conv_lhs => rw [← List.takeWhile_append_dropWhile (p := isWS) (l := s)]
          rw [hm, List.append_nil]
        have hcmem : c ∈ s.takeWhile isWS := by
          rw [← hs_eq]
          obtain ⟨ys, hys⟩ := List.getLast?_eq_some_iff.mp hc
          rw [hys]; simp
        have hws : isWS c = true := List.mem_takeWhile_imp hcmem
        rw [hlast c hc] at hws
        cases hws
      subst hsnil
      simp [foldTokensF]
    | a :: tl =>
      have hstep : foldTokensF (fuel + 1) s =
          (s.takeWhile isWS ++ (a :: tl).takeWhile (fun c => !isWS c)) ::
            foldTokensF fuel ((a :: tl).dropWhile (fun c => !isWS c)) := by
        simp only [foldTokensF, hm]
      have hadrop : isWS a = false := by
        have := List.head?_dropWhile_not isWS s
        rw [hm] at this
        simpa using this
      have hrest_eq : (a :: tl).dropWhile (fun c => !isWS c) =
          tl.dropWhile (fun c => !isWS c) := by
        rw [List.dropWhile_cons_of_pos]
        simp [hadrop]
      have hrest_len : ((a :: tl).dropWhile (fun c => !isWS c)).length < fuel := by
        have h1 : (tl.dropWhile (fun c => !isWS c)).length ≤ tl.length :=
          (List.dropWhile_sublist _).length_le
      -- relate to s: a :: tl is a sublist of s
        have h2 : (a :: tl).length ≤ s.length := by
          rw [← hm]
          exact (List.dropWhile_sublist _).length_le
        rw [hrest_eq]
        simp only [List.length_cons] at h2
        omega
      have hsplit : s = s.takeWhile isWS ++ (a :: tl) := by
        conv_lhs => rw [← List.takeWhile_append_dropWhile (p := isWS) (l := s)]
        rw [hm]
      have hsplit2 : (a :: tl) = (a :: tl).takeWhile (fun c => !isWS c) ++
          (a :: tl).dropWhile (fun c => !isWS c) :=
        (List.takeWhile_append_dropWhile _ _).symm
      have hlast' : ∀ c, ((a :: tl).dropWhile (fun c => !isWS c)).getLast? = some c →
          isWS c = false := by
        intro c hc
        apply hlast
        have hne : (a :: tl).dropWhile (fun c => !isWS c) ≠ [] := by
          intro hnil
          rw [hnil] at hc
          cases hc
        rw [hsplit, hsplit2, ← List.append_assoc,
          List.getLast?_append_of_ne_nil _ hne]
        exact hc
      rw [hstep]
      simp only [List.flatten_cons]
      rw [ih _ hrest_len hlast']
      rw [List.append_assoc, ← hsplit2, ← hsplit]

theorem foldTokens_flatten (s : Bytes)
    (hlast : ∀ c, s.getLast? = some c → isWS c = false) :
    (foldTokens s).flatten = s :=
  foldTokensF_flatten (s.length + 1) s (by omega) hlast

/-- Every token of an input that starts with folding whitespace starts
with folding whitespace itself. -/
theorem foldTokensF_ws (fuel : Nat) :
    ∀ s : Bytes, s.length < fuel →
      (∀ c, s.head? = some c → isWS c = true) →
      ∀ tok ∈ foldTokensF fuel s, ∃ c, tok.head? = some c ∧ isWS c = true := by
  induction fuel with
  | zero => intro s h; omega
  | succ fuel ih =>
    intro s h hhead
    match hm : s.dropWhile isWS with
    | [] =>
      intro tok htok
      simp only [foldTokensF, hm] at htok
      cases htok
    | a :: tl =>
      intro tok htok
      have hadrop : isWS a = false := by
        have := List.head?_dropWhile_not isWS s
        rw [hm] at this
        simpa using this
      have hstep : foldTokensF (fuel + 1) s =
          (s.takeWhile isWS ++ (a :: tl).takeWhile (fun c => !isWS c)) ::
            foldTokensF fuel ((a :: tl).dropWhile (fun c => !isWS c)) := by
        simp only [foldTokensF, hm]
      rw [hstep] at htok
      rcases List.mem_cons.mp htok with htok | htok
      · -- the first token: its head is the head of s, which is whitespace,
        -- unless the whitespace run is empty, in which case its head is `a`
        -- and s.head = a as well
        subst htok
        match hs : s with
        | [] => simp [List.takeWhile_nil] at hm
        | b :: stl =>
          by_cases hb : isWS b = true
          · refine ⟨b, ?_, hb⟩
            rw [List.takeWhile_cons_of_pos hb]
            rfl
          · have hba : a = b := by
              rw [List.dropWhile_cons_of_neg (by simp [hb])] at hm
              cases hm
              rfl
            have := hhead b rfl
            rw [this] at hb
            exact absurd rfl hb
      · have hrest_eq : (a :: tl).dropWhile (fun c => !isWS c) =
            tl.dropWhile (fun c => !isWS c) := by
          rw [List.dropWhile_cons_of_pos]
          simp [hadrop]
        have hrest_len : ((a :: tl).dropWhile (fun c => !isWS c)).length < fuel := by
          have h1 : (tl.dropWhile (fun c => !isWS c)).length ≤ tl.length :=
            (List.dropWhile_sublist _).length_le
          have h2 : (a :: tl).length ≤ s.length := by
            rw [← hm]
            exact (List.dropWhile_sublist _).length_le
          rw [hrest_eq]
          simp only [List.length_cons] at h2
          omega
        have hresthead : ∀ c, ((a :: tl).dropWhile (fun c => !isWS c)).head? = some c →
            isWS c = true := by
          intro c hc
          have := List.head?_dropWhile_not (fun c => !isWS c) (a :: tl)
          rw [hc] at this
          simpa using this
        exact ih _ hrest_len hresthead tok htok

/-- Every token after the first starts with folding whitespace. -/
theorem foldTokensF_tail_ws (fuel : Nat) (s : Bytes) (h : s.length < fuel) :
    ∀ tok ∈ (foldTokensF fuel s).tail, ∃ c, tok.head? = some c ∧ isWS c = true := by
  match fuel, h with
  | fuel + 1, h =>
    match hm : s.dropWhile isWS with
    | [] =>
      intro tok htok
      simp only [foldTokensF, hm] at htok
      cases htok
    | a :: tl =>
      intro tok htok
      have hadrop : isWS a = false := by
        have := List.head?_dropWhile_not isWS s
        rw [hm] at this
        simpa using this
      have hstep : foldTokensF (fuel + 1) s =
          (s.takeWhile isWS ++ (a :: tl).takeWhile (fun c => !isWS c)) ::
            foldTokensF fuel ((a :: tl).dropWhile (fun c => !isWS c)) := by
        simp only [foldTokensF, hm]
      rw [hstep] at htok
      simp only [List.tail_cons] at htok
      have hrest_eq : (a :: tl).dropWhile (fun c => !isWS c) =
          tl.dropWhile (fun c => !isWS c) := by
        rw [List.dropWhile_cons_of_pos]
        simp [hadrop]
      have hrest_len : ((a :: tl).dropWhile (fun c => !isWS c)).length < fuel := by
        have h1 : (tl.dropWhile (fun c => !isWS c)).length ≤ tl.length :=
          (List.dropWhile_sublist _).length_le
        have h2 : (a :: tl).length ≤ s.length := by
          rw [← hm]
          exact (List.dropWhile_sublist _).length_le
        rw [hrest_eq]
        simp only [List.length_cons] at h2
        omega
      have hresthead : ∀ c, ((a :: tl).dropWhile (fun c => !isWS c)).head? = some c →
          isWS c = true := by
        intro c hc
        have := List.head?_dropWhile_not (fun c => !isWS c) (a :: tl)
        rw [hc] at this
        simpa using this
      exact foldTokensF_ws fuel _ hrest_len hresthead tok htok

/-- Tokens only contain bytes of the input. -/
theorem foldTokensF_mem (fuel : Nat) :
    ∀ s : Bytes, s.length < fuel →
      ∀ tok ∈ foldTokensF fuel s, ∀ c ∈ tok, c ∈ s := by
  induction fuel with
  | zero => intro s h; omega
  | succ fuel ih =>
    intro s h
    match hm : s.dropWhile isWS with
    | [] =>
      intro tok htok
      simp only [foldTokensF, hm] at htok
      cases htok
    | a :: tl =>
      intro tok htok c hc
      have hadrop : isWS a = false := by
        have := List.head?_dropWhile_not isWS s
        rw [hm] at this
        simpa using this
      have hstep : foldTokensF (fuel + 1) s =
          (s.takeWhile isWS ++ (a :: tl).takeWhile (fun c => !isWS c)) ::
            foldTokensF fuel ((a :: tl).dropWhile (fun c => !isWS c)) := by
        simp only [foldTokensF, hm]
      rw [hstep] at htok
      have hsubatl : List.Sublist (a :: tl) s := by
        rw [← hm]
        exact List.dropWhile_sublist _
      rcases List.mem_cons.mp htok with htok | htok
      · subst htok
        rcases List.mem_append.mp hc with hc | hc
        · exact (List.takeWhile_sublist _).subset hc
        · exact hsubatl.subset ((List.takeWhile_sublist _).subset hc)
      · have hrest_eq : (a :: tl).dropWhile (fun c => !isWS c) =
            tl.dropWhile (fun c => !isWS c) := by
          rw [List.dropWhile_cons_of_pos]
          simp [hadrop]
        have hrest_len : ((a :: tl).dropWhile (fun c => !isWS c)).length < fuel := by
          have h1 : (tl.dropWhile (fun c => !isWS c)).length ≤ tl.length :=
            (List.dropWhile_sublist _).length_le
          have h2 : (a :: tl).length ≤ s.length := by
            rw [← hm]
            exact (List.dropWhile_sublist _).length_le
          rw [hrest_eq]
          simp only [List.length_cons] at h2
          omega
        have hcs : c ∈ (a :: tl).dropWhile (fun c => !isWS c) :=
          ih _ hrest_len tok htok c hc
        exact hsubatl.subset ((List.dropWhile_sublist _).subset hcs)

end Rendmail

namespace Rendmail

/-- Unfolding the packer output: terminator-trimmed concatenation of
the produced lines restores the pending line and remaining tokens. -/
theorem foldAux_unfold (term : Bytes)
    (hterm : ∀ x : Bytes, (∀ c ∈ x, c ≠ '\r') → trimCRLF (x ++ term) = x) :
    ∀ (tokens : List Bytes) (cur : Bytes) (done : List Bytes),
      (∀ c ∈ cur, c ≠ '\r') →
      (∀ tok ∈ tokens, ∀ c ∈ tok, c ≠ '\r') →
      ((foldAux term tokens cur done).map trimCRLF).flatten =
        ((done.map trimCRLF).flatten ++ cur) ++ tokens.flatten := by
  intro tokens
  induction tokens with
  | nil =>
    intro cur done hcur _
    simp only [foldAux, List.map_append, List.flatten_append, List.map_cons,
      List.map_nil, List.flatten_cons, List.flatten_nil]
    rw [hterm cur hcur]
    simp
  | cons p rest ih =>
    intro cur done hcur htoks
    by_cases hle : cur.length + p.length ≤ 78
    · have hstep : foldAux term (p :: rest) cur done = foldAux term rest (cur ++ p) done := by
        simp [foldAux, hle]
      rw [hstep, ih (cur ++ p) done ?hc ?ht]
      case hc =>
        intro c hc
        rcases List.mem_append.mp hc with hc | hc
        · exact hcur c hc
        · exact htoks p (by simp) c hc
      case ht => exact fun tok htok c hc => htoks tok (by simp [htok]) c hc
      simp [List.append_assoc]
    · have hstep : foldAux term (p :: rest) cur done =
          foldAux term rest p (done ++ [cur ++ term]) := by
        simp [foldAux, hle]
      rw [hstep, ih p (done ++ [cur ++ term]) ?hc ?ht]
      case hc => exact fun c hc => htoks p (by simp) c hc
      case ht => exact fun tok htok c hc => htoks tok (by simp [htok]) c hc
      simp only [List.map_append, List.flatten_append, List.map_cons, List.map_nil,
        List.flatten_cons, List.flatten_nil]
      rw [hterm cur hcur]
      simp [List.append_assoc]

/-- The packer's output begins with the pending line (extended) and
every later line starts with one of the still-pending tokens. -/
theorem foldAux_struct (term : Bytes) :
    ∀ (tokens : List Bytes) (cur : Bytes) (done : List Bytes),
      (∀ tok ∈ tokens, ∃ c, tok.head? = some c ∧ isWS c = true) →
      ∃ suf lns, foldAux term tokens cur done = done ++ (cur ++ suf) :: lns ∧
        ∀ ln ∈ lns, ∃ c, ln.head? = some c ∧ isWS c = true := by
  intro tokens
  induction tokens with
  | nil =>
    intro cur done _
    exact ⟨term, [], by simp [foldAux], by simp⟩
  | cons p rest ih =>
    intro cur done htoks
    by_cases hle : cur.length + p.length ≤ 78
    · have hstep : foldAux term (p :: rest) cur done = foldAux term rest (cur ++ p) done := by
        simp [foldAux, hle]
      obtain ⟨suf, lns, heq, hws⟩ := ih (cur ++ p) done
        (fun tok htok => htoks tok (by simp [htok]))
      exact ⟨p ++ suf, lns, by rw [hstep, heq]; simp [List.append_assoc], hws⟩
    · have hstep : foldAux term (p :: rest) cur done =
          foldAux term rest p (done ++ [cur ++ term]) := by
        simp [foldAux, hle]
      obtain ⟨suf, lns, heq, hws⟩ := ih p (done ++ [cur ++ term])
        (fun tok htok => htoks tok (by simp [htok]))
      refine ⟨term, (p ++ suf) :: lns, ?_, ?_⟩
      · rw [hstep, heq]
        simp
      · intro ln hln
        rcases List.mem_cons.mp hln with hln | hln
        · obtain ⟨c, hc1, hc2⟩ := htoks p (by simp)
          refine ⟨c, ?_, hc2⟩
          rw [hln]
          cases p with
          | nil => cases hc1
          | cons b bs =>
            simp only [List.head?_cons, Option.some.injEq] at hc1
            simp [hc1]
        · exact hws ln hln

/-- Every produced line carries the terminator and its content is at
most 78 characters unless it is a single token. -/
theorem foldAux_shape (term : Bytes) :
    ∀ (tokens : List Bytes) (cur : Bytes) (done : List Bytes),
      ∀ ln ∈ foldAux term tokens cur done, ln ∈ done ∨
        ∃ content, ln = content ++ term ∧
          (content.length ≤ 78 ∨ content ∈ cur :: tokens) := by
  intro tokens
  induction tokens with
  | nil =>
    intro cur done ln hln
    simp only [foldAux] at hln
    rcases List.mem_append.mp hln with hln | hln
    · exact Or.inl hln
    · simp only [List.mem_singleton] at hln
      exact Or.inr ⟨cur, hln, Or.inr (by simp)⟩
  | cons p rest ih =>
    intro cur done ln hln
    by_cases hle : cur.length + p.length ≤ 78
    · have hstep : foldAux term (p :: rest) cur done = foldAux term rest (cur ++ p) done := by
        simp [foldAux, hle]
      rw [hstep] at hln
      rcases ih (cur ++ p) done ln hln with h | ⟨content, hc1, hc2⟩
      · exact Or.inl h
      · refine Or.inr ⟨content, hc1, ?_⟩
        rcases hc2 with hc2 | hc2
        · exact Or.inl hc2
        · rcases List.mem_cons.mp hc2 with hc2 | hc2
          · left
            rw [hc2]
            simpa using hle
          · exact Or.inr (by simp [hc2])
    · have hstep : foldAux term (p :: rest) cur done =
          foldAux term rest p (done ++ [cur ++ term]) := by
        simp [foldAux, hle]
      rw [hstep] at hln
      rcases ih p (done ++ [cur ++ term]) ln hln with h | ⟨content, hc1, hc2⟩
      · rcases List.mem_append.mp h with h | h
        · exact Or.inl h
        · simp only [List.mem_singleton] at h
          exact Or.inr ⟨cur, h, Or.inr (by simp)⟩
      · refine Or.inr ⟨content, hc1, ?_⟩
        rcases hc2 with hc2 | hc2
        · exact Or.inl hc2
        · exact Or.inr (by
            rcases List.mem_cons.mp hc2 with hc2 | hc2 <;> simp [hc2])

end Rendmail

namespace Rendmail

/-- Claim C8: for a CR/LF-free value not ending in whitespace and a
terminator in {LF, CRLF}, unfolding the folded lines (trimming only
each line's trailing terminator and concatenating) restores the value
exactly; every line after the first begins with space or tab; every
line is `content ++ term` with content at most 78 characters unless it
is a single (oversized) token. -/
theorem claim_C8 (v t : Bytes)
    (ht : t = ("\n").toList ∨ t = ("\r\n").toList)
    (hv : ∀ c ∈ v, c ≠ '\r' ∧ c ≠ '\n')
    (hlast : ∀ c, v.getLast? = some c → isWS c = false) :
    ((foldHeaderField v t).map trimCRLF).flatten = v ∧
    (∀ ln ∈ (foldHeaderField v t).tail, ∃ c, ln.head? = some c ∧ isWS c = true) ∧
    (∀ ln ∈ foldHeaderField v t, ∃ content, ln = content ++ t ∧
      (content.length ≤ 78 ∨ content ∈ foldTokens v)) := by
  have hterm : ∀ x : Bytes, (∀ c ∈ x, c ≠ '\r') → trimCRLF (x ++ t) = x :=
    fun x hx => trimCRLF_append_term x t hx ht
  have htokmem : ∀ tok ∈ foldTokens v, ∀ c ∈ tok, c ∈ v :=
    foldTokensF_mem (v.length + 1) v (by omega)
  have hflat : (foldTokens v).flatten = v := foldTokens_flatten v hlast
  match h : foldTokens v with
  | [] =>
    have hvnil : v = [] := by rw [← hflat, h]; rfl
    subst hvnil
    have hff : foldHeaderField [] t = [] := by
      simp only [foldHeaderField, h]
    rw [hff]
    exact ⟨rfl, by simp, by simp⟩
  | p :: rest =>
    have hff : foldHeaderField v t = foldAux t rest p [] := by
      simp only [foldHeaderField, h]
    have hmem' : ∀ tok ∈ p :: rest, ∀ c ∈ tok, c ∈ v := by
      rw [← h]; exact htokmem
    refine ⟨?_, ?_, ?_⟩
    · rw [hff, foldAux_unfold t hterm rest p []
        (fun c hc => (hv c (hmem' p (by simp) c hc)).1)
        (fun tok htok c hc => (hv c (hmem' tok (by simp [htok]) c hc)).1)]
      simp only [List.map_nil, List.flatten_nil, List.nil_append]
      rw [← List.flatten_cons, ← h, hflat]
    · have htail : ∀ tok ∈ rest, ∃ c, tok.head? = some c ∧ isWS c = true := by
        have := foldTokensF_tail_ws (v.length + 1) v (by omega)
        rw [show foldTokensF (v.length + 1) v = foldTokens v from rfl, h] at this
        simpa using this
      obtain ⟨suf, lns, heq, hws⟩ := foldAux_struct t rest p [] htail
      rw [hff, heq]
      simpa using hws
    · intro ln hln
      rw [hff] at hln
      rcases foldAux_shape t rest p [] ln hln with hc | ⟨content, hc1, hc2⟩
      · cases hc
      · exact ⟨content, hc1, hc2⟩

theorem claim_C8_witness :
    ((foldHeaderField (("X-Rendmail-Subject: this is a rather long subject line that will need to be folded at some point").toList) (("\n").toList)).map trimCRLF).flatten =
      (("X-Rendmail-Subject: this is a rather long subject line that will need to be folded at some point").toList) ∧
    (∀ ln ∈ (foldHeaderField (("X-Rendmail-Subject: this is a rather long subject line that will need to be folded at some point").toList) (("\n").toList)).tail,
      ∃ c, ln.head? = some c ∧ isWS c = true) ∧
    (∀ ln ∈ foldHeaderField (("X-Rendmail-Subject: this is a rather long subject line that will need to be folded at some point").toList) (("\n").toList),
      ∃ content, ln = content ++ (("\n").toList) ∧
        (content.length ≤ 78 ∨ content ∈ foldTokens (("X-Rendmail-Subject: this is a rather long subject line that will need to be folded at some point").toList))) := by
  apply claim_C8
  · exact Or.inl rfl
  · decide
  · intro c hc
    rw [show (("X-Rendmail-Subject: this is a rather long subject line that will need to be folded at some point").toList).getLast? = some 't' from by decide] at hc
    cases hc
    decide

end Rendmail

namespace Rendmail

/-- Claim C3: when the first Content-Type field of a part selects
deletion, the engine writes exactly the synthesized replacement header
(terminator style taken from the part's first header line) followed by
one blank line, then still writes the field's own original lines and,
via the continuation, every remaining original header line in order
(as body, after the early blank line); the deleted part's body is
discarded up to the enclosing boundary delimiter line, which is itself
written. -/
theorem claim_C3 :
    (∀ (term : Bytes) (now : GoTime),
      deletedContentType term now =
        ("Content-Type: message/external-body; access-type=x-rendmail-deleted;").toList
          ++ term ++ '\t' :: ("expiration=").toList ++ '"' :: formatRFC1123Z now
          ++ '"' :: term ++ term) ∧
    (∀ (term0 : Bytes) (folded : List Bytes),
      termSel term0 folded =
        if term0 = [] then
          if (("\r\n").toList).isSuffixOf (folded.headD []) then ("\r\n").toList
          else ("\n").toList
        else term0) ∧
    (∀ (input : Bytes) (opts : rewriteOptions) (term0 : Bytes) (data : headerData)
      (folded : List Bytes) (unfolded rest key val : Bytes),
      readFoldedLine input = some (folded, unfolded, rest) →
      unfolded ≠ [] →
      parseHeaderField unfolded = some (key, val) →
      key = ("Content-Type").toList →
      shouldDelete (resolveContentType val).1 opts.DeleteMediaTypes
        opts.KeepMediaTypes = .ok true →
      copyHeaderLoop input opts term0 false data =
        ⟨deletedContentType (termSel term0 folded) opts.Now ++ folded.flatten ++
            (copyHeaderLoop rest opts (termSel term0 folded) true
              ⟨(resolveContentType val).1, (resolveContentType val).2, true⟩).out,
          (copyHeaderLoop rest opts (termSel term0 folded) true
            ⟨(resolveContentType val).1, (resolveContentType val).2, true⟩).rest,
          (copyHeaderLoop rest opts (termSel term0 folded) true
            ⟨(resolveContentType val).1, (resolveContentType val).2, true⟩).res⟩) ∧
    (∀ (input : Bytes) (opts : rewriteOptions) (term0 : Bytes) (data : headerData),
      ∃ consumed, input = consumed ++ (copyHeaderLoop input opts term0 true data).rest ∧
        consumed.Sublist (copyHeaderLoop input opts term0 true data).out) ∧
    (∀ (input delim : Bytes) (e : Bool), delim ≠ [] →
      (copyBody input delim true).res = .ok e →
      ∃ skipped ln, input = skipped ++ ln ++ (copyBody input delim true).rest ∧
        (copyBody input delim true).out = ln ∧ delim.isPrefixOf ln = true) := by
  refine ⟨fun _ _ => rfl, fun _ _ => rfl, ?_, ?_, ?_⟩
  · intro input opts term0 data folded unfolded rest key val hrf hu hpf hkey hdel
    have hlt := (readFoldedLine_spec input folded unfolded rest hrf).2.2.2.2.2.2
    show copyHeaderLoopF (input.length + 1) input opts term0 false data = _
    obtain ⟨len, hlen⟩ : ∃ n, input.length = n := ⟨_, rfl⟩
    rw [hlen]
    rw [show len + 1 = len + 1 from rfl]
    rw [copyHeaderLoopF_step_ct len input opts term0 data folded unfolded rest key val
      true hrf hu hpf hkey hdel]
    rw [copyHeaderLoopF_irrel len (rest.length + 1) rest opts (termSel term0 folded)
      true ⟨(resolveContentType val).1, (resolveContentType val).2, true⟩
      (by omega) (by omega)]
    rfl
  · intro input opts term0 data
    exact copyHeaderLoopF_sublist (input.length + 1) input opts term0 data (by omega)
  · intro input delim e hdne hres
    exact copyBodyF_deleted (input.length + 1) input delim hdne (by omega) e hres

end Rendmail

namespace Rendmail

theorem claim_C3_witness :
    copyHeaderLoop (("Content-Type: image/jpeg\nX: y\n\nbody\n").toList)
        ⟨[("image/*").toList], [], tTest, false, false⟩ [] false
        ⟨defaultMediaType, defaultContentParams, false⟩ =
      ⟨("Content-Type: message/external-body; access-type=x-rendmail-deleted;\n\texpiration=\"Mon, 18 Feb 2021 21:54:42 +0000\"\n\nContent-Type: image/jpeg\nX: y\n\n").toList,
        ("body\n").toList, .ok ⟨("image/jpeg").toList, [], true⟩⟩ ∧
    (∃ skipped ln, (("junk\nmore\n--X\ntail\n").toList : Bytes) = skipped ++ ln ++
        (copyBody (("junk\nmore\n--X\ntail\n").toList) (("--X").toList) true).rest ∧
      (copyBody (("junk\nmore\n--X\ntail\n").toList) (("--X").toList) true).out = ln ∧
      ((("--X").toList) : Bytes).isPrefixOf ln = true) := by
  constructor
  · rw [(claim_C3).2.2.1 (("Content-Type: image/jpeg\nX: y\n\nbody\n").toList)
      ⟨[("image/*").toList], [], tTest, false, false⟩ []
      ⟨defaultMediaType, defaultContentParams, false⟩
      [("Content-Type: image/jpeg\n").toList] (("Content-Type: image/jpeg").toList)
      (("X: y\n\nbody\n").toList) (("Content-Type").toList) (("image/jpeg").toList)
      (by decide) (by decide) (by decide) rfl (by decide)]
    decide
  · exact (claim_C3).2.2.2.2 (("junk\nmore\n--X\ntail\n").toList) (("--X").toList)
      false (by decide) (by decide)

end Rendmail

namespace Rendmail

/-- Claim C4: a part's body is interpreted as nested parts exactly when
the resolved media type starts with `multipart/` and the part is not
marked for deletion; then a missing or empty boundary parameter is the
"invalid boundary" message-format error instead of recursion;
otherwise the nested parts are copied one per boundary delimiter by
the parts loop, which stops exactly at the closing delimiter. -/
theorem claim_C4 :
    (∀ (input delim : Bytes) (opts : rewriteOptions) (hdata : headerData),
      (copyHeader input opts).res = .ok hdata →
      ¬((("multipart/").toList).isPrefixOf hdata.mediaType = true ∧
        hdata.deletePart = false) →
      copyMessagePart input delim opts =
        ⟨(copyHeader input opts).out ++
            (copyBody (copyHeader input opts).rest delim hdata.deletePart).out,
          (copyBody (copyHeader input opts).rest delim hdata.deletePart).rest,
          (copyBody (copyHeader input opts).rest delim hdata.deletePart).res⟩) ∧
    (∀ (input delim : Bytes) (opts : rewriteOptions) (hdata : headerData),
      (copyHeader input opts).res = .ok hdata →
      (("multipart/").toList).isPrefixOf hdata.mediaType = true ∧
        hdata.deletePart = false →
      lookupParam hdata.contentParams (("boundary").toList) = [] →
      copyMessagePart input delim opts =
        ⟨(copyHeader input opts).out, (copyHeader input opts).rest,
          .error (.msg "invalid boundary")⟩) ∧
    (∀ (input delim : Bytes) (opts : rewriteOptions) (hdata : headerData),
      (copyHeader input opts).res = .ok hdata →
      (("multipart/").toList).isPrefixOf hdata.mediaType = true ∧
        hdata.deletePart = false →
      lookupParam hdata.contentParams (("boundary").toList) ≠ [] →
      (copyBody (copyHeader input opts).rest
        ((("--").toList) ++ lookupParam hdata.contentParams (("boundary").toList))
        false).res = .ok false →
      copyMessagePart input delim opts =
        (let subDelim := (("--").toList) ++
          lookupParam hdata.contentParams (("boundary").toList)
         let pre := copyBody (copyHeader input opts).rest subDelim false
         let ps := copyPartsF (2 * input.length) pre.rest subDelim opts
         match ps.res with
         | .error e => ⟨(copyHeader input opts).out ++ pre.out ++ ps.out, ps.rest,
             .error e⟩
         | .ok _ =>
           let b := copyBody ps.rest delim hdata.deletePart
           ⟨(copyHeader input opts).out ++ pre.out ++ ps.out ++ b.out, b.rest, b.res⟩)) ∧
    (∀ (fuel : Nat) (input subDelim : Bytes) (opts : rewriteOptions),
      (copyMessagePartF fuel input subDelim opts).res = .ok true →
      copyPartsF (fuel + 1) input subDelim opts =
        ⟨(copyMessagePartF fuel input subDelim opts).out,
          (copyMessagePartF fuel input subDelim opts).rest, .ok ()⟩) ∧
    (∀ (fuel : Nat) (input subDelim : Bytes) (opts : rewriteOptions),
      (copyMessagePartF fuel input subDelim opts).res = .ok false →
      copyPartsF (fuel + 1) input subDelim opts =
        ⟨(copyMessagePartF fuel input subDelim opts).out ++
            (copyPartsF fuel (copyMessagePartF fuel input subDelim opts).rest
              subDelim opts).out,
          (copyPartsF fuel (copyMessagePartF fuel input subDelim opts).rest
            subDelim opts).rest,
          (copyPartsF fuel (copyMessagePartF fuel input subDelim opts).rest
            subDelim opts).res⟩) := by
  refine ⟨?_, ?_, ?_, ?_, ?_⟩
  · intro input delim opts hdata hh hmp
    exact copyMessagePartF_step_flat (2 * input.length) input delim opts hdata hh hmp
  · intro input delim opts hdata hh hmp hbnd
    exact copyMessagePartF_step_badbnd (2 * input.length) input delim opts hdata hh hmp hbnd
  · intro input delim opts hdata hh hmp hbnd hpre
    exact copyMessagePartF_step_parts (2 * input.length) input delim opts hdata hh hmp hbnd hpre
  · intro fuel input subDelim opts hp
    exact copyPartsF_step_end fuel input subDelim opts hp
  · intro fuel input subDelim opts hp
    exact copyPartsF_step_more fuel input subDelim opts hp

end Rendmail

namespace Rendmail

theorem claim_C4_witness :
    copyMessagePart (("Content-Type: text/plain\n\nhello\n").toList) []
        ⟨[], [], tTest, false, false⟩ =
      ⟨("Content-Type: text/plain\n\nhello\n").toList, [], .ok true⟩ ∧
    copyMessagePart (("Content-Type: multipart/mixed\n\nbody\n").toList) []
        ⟨[], [], tTest, false, false⟩ =
      ⟨("Content-Type: multipart/mixed\n\n").toList, ("body\n").toList,
        .error (.msg "invalid boundary")⟩ ∧
    copyMessagePart (("Content-Type: multipart/mixed; boundary=X\n\npre\n--X\nA: b\n\nc\n--X--\ntail\n").toList)
        [] ⟨[], [], tTest, false, false⟩ =
      ⟨("Content-Type: multipart/mixed; boundary=X\n\npre\n--X\nA: b\n\nc\n--X--\ntail\n").toList,
        [], .ok true⟩ := by
  refine ⟨?_, ?_, ?_⟩
  · rw [(claim_C4).1 (("Content-Type: text/plain\n\nhello\n").toList) []
      ⟨[], [], tTest, false, false⟩ ⟨("text/plain").toList, [], false⟩
      (by decide) (by decide)]
    decide
  · rw [(claim_C4).2.1 (("Content-Type: multipart/mixed\n\nbody\n").toList) []
      ⟨[], [], tTest, false, false⟩ ⟨("multipart/mixed").toList, [], false⟩
      (by decide) (by decide) (by decide)]
    decide
  · rw [(claim_C4).2.2.1 (("Content-Type: multipart/mixed; boundary=X\n\npre\n--X\nA: b\n\nc\n--X--\ntail\n").toList)
      [] ⟨[], [], tTest, false, false⟩
      ⟨("multipart/mixed").toList, [(("boundary").toList, ("X").toList)], false⟩
      (by decide) (by decide) (by decide) (by decide)]
    decide

end Rendmail

namespace Rendmail

/-- Claim C6: with subject decoding on, a Subject field's original
folded lines are written byte-for-byte, and a folded
`X-Rendmail-Subject` field is appended immediately after them exactly
when the transliteration succeeds, is non-empty and differs from the
raw value; on failure or a trivial result nothing is added and no
partially-decoded value is emitted; plus the RFC 2047 example. -/
theorem claim_C6 :
    (∀ (input : Bytes) (opts : rewriteOptions) (term0 : Bytes) (gotCT : Bool)
      (data : headerData) (folded : List Bytes) (unfolded rest val : Bytes),
      readFoldedLine input = some (folded, unfolded, rest) →
      unfolded ≠ [] →
      parseHeaderField unfolded = some ((("Subject").toList), val) →
      opts.DecodeSubject = true →
      copyHeaderLoop input opts term0 gotCT data =
        ⟨folded.flatten ++
            (match decodeHeaderValue val with
             | some dec =>
               if dec ≠ [] ∧ dec ≠ val then
                 foldHeaderField ((("X-Rendmail-Subject: ").toList) ++ dec)
                   (termSel term0 folded)
               else []
             | none => []).flatten ++
            (copyHeaderLoop rest opts (termSel term0 folded) gotCT data).out,
          (copyHeaderLoop rest opts (termSel term0 folded) gotCT data).rest,
          (copyHeaderLoop rest opts (termSel term0 folded) gotCT data).res⟩) ∧
    decodeHeaderValue (("=?ISO-8859-1?Q?Andr=E9?= Pirard").toList) =
      some (("Andre Pirard").toList) ∧
    decodeHeaderValue (("=?KOI8-R?Q?abc?=").toList) = none ∧
    rewriteMessage (("Subject: =?ISO-8859-1?Q?Andr=E9?= Pirard\n\nbody\n").toList)
        ⟨[], [], tTest, true, false⟩ =
      ((("Subject: =?ISO-8859-1?Q?Andr=E9?= Pirard\nX-Rendmail-Subject: Andre Pirard\n\nbody\n").toList),
        none) ∧
    rewriteMessage (("Subject: =?KOI8-R?Q?abc?= x\n\nbody\n").toList)
        ⟨[], [], tTest, true, false⟩ =
      ((("Subject: =?KOI8-R?Q?abc?= x\n\nbody\n").toList), none) := by
  refine ⟨?_, by decide, by decide, by decide, by decide⟩
  intro input opts term0 gotCT data folded unfolded rest val hrf hu hpf hds
  have hlt := (readFoldedLine_spec input folded unfolded rest hrf).2.2.2.2.2.2
  show copyHeaderLoopF (input.length + 1) input opts term0 gotCT data = _
  rw [copyHeaderLoopF_step_subject input.length input opts term0 gotCT data folded
    unfolded rest val hrf hu hpf hds]
  rw [copyHeaderLoopF_irrel input.length (rest.length + 1) rest opts
    (termSel term0 folded) gotCT data (by omega) (by omega)]
  rfl

theorem claim_C6_witness :
    copyHeaderLoop (("Subject: =?ISO-8859-1?Q?Andr=E9?= Pirard\n\nbody\n").toList)
        ⟨[], [], tTest, true, false⟩ [] false
        ⟨defaultMediaType, defaultContentParams, false⟩ =
      ⟨("Subject: =?ISO-8859-1?Q?Andr=E9?= Pirard\nX-Rendmail-Subject: Andre Pirard\n\n").toList,
        ("body\n").toList, .ok ⟨defaultMediaType, defaultContentParams, false⟩⟩ := by
  rw [(claim_C6).1 (("Subject: =?ISO-8859-1?Q?Andr=E9?= Pirard\n\nbody\n").toList)
    ⟨[], [], tTest, true, false⟩ [] false ⟨defaultMediaType, defaultContentParams, false⟩
    [("Subject: =?ISO-8859-1?Q?Andr=E9?= Pirard\n").toList]
    (("Subject: =?ISO-8859-1?Q?Andr=E9?= Pirard").toList)
    (("\nbody\n").toList) (("=?ISO-8859-1?Q?Andr=E9?= Pirard").toList)
    (by decide) (by decide) (by decide) rfl]
  decide

end Rendmail
